import Mathlib

/-!
Verification development for the coverage-rest-client repository.

The definitions below are a shallow embedding of the client's planning core
(`src/util.js` together with the capability builder of `api.js` and the
collection query proxy): axis-to-concept resolution, the per-axis
constraint splitter with emulation, dependency repair, the value snapper,
and the outcome structure of the wrapped subset / query executors.

Modelling conventions:
* JavaScript numbers (and ISO date strings, coded through an injective
  numeric code) are modelled as `ℚ`.
* A possibly-`undefined` JavaScript number is `Option ℚ`; every comparison
  involving `undefined`/`NaN` is `false`, as in JavaScript.
* JavaScript objects used as string-keyed maps are association lists whose
  assignment (`obj[k] = v`) is `objInsert` (overwrite in place, insertion
  order preserved).
* Promise chains carry no interesting state here, so an execution is
  modelled by the pure outcome value it settles on; a thrown error /
  rejected promise is `Except.error`.
-/

set_option allowUnsafeReducibility true
attribute [semireducible] Rat.sub Rat.add Rat.mul Rat.inv

namespace CovRest

/-- Abstract semantic concepts an axis can play (the API concept names
`x`, `y`, `vertical`, `time` plus the generic `index` concept). -/
inductive Concept
  | x
  | y
  | vertical
  | time
  | index
deriving DecidableEq, Repr

/-- Referencing system type tags (`system.type` in the domain metadata). -/
inductive SystemType
  | temporalRS
  | verticalCRS
  | geodeticCRS
  | projectedCRS
  | other
deriving DecidableEq, Repr

/-- One referencing entry of a domain: component axis identifiers plus the
system descriptor's type tag. -/
structure RefEntry where
  components : List String
  system : SystemType
deriving DecidableEq, Repr

instance : Inhabited RefEntry := ⟨⟨[], SystemType.other⟩⟩

/-- An axis of a domain: its ordered values plus the numeric-normalization
data used by the value snapper.  `isTime`, `isLon`, `toTime` and `lonWrap`
model `isISODateAxis`, `isLongitudeAxis`, ISO-date-to-timestamp conversion
and `getLongitudeWrapper`.  Modelled from the spec: these helpers live in
the repository's `referencing.js`, which is not part of the provided
sources; §4.4 of the spec describes them as axis-kind detection together
with a timestamp conversion for ISO time axes and a longitude wrapper
derived from the axis's own value range. -/
structure AxisCtx where
  values : List ℚ
  isTime : Bool
  isLon : Bool
  toTime : ℚ → ℚ
  lonWrap : ℚ → ℚ

instance : Inhabited AxisCtx := ⟨⟨[], false, false, id, id⟩⟩

/-- A domain: named axes plus referencing entries. -/
structure Domain where
  axes : List (String × AxisCtx)
  referencing : List RefEntry

/-- Axis lookup (`domain.axes.get(axis)`); a missing axis yields the
default (empty) axis context. -/
def Domain.axisCtx (d : Domain) (a : String) : AxisCtx :=
  (d.axes.lookup a).getD default

/-- Values of an axis (`domain.axes.get(axis).values`). -/
def Domain.axisValues (d : Domain) (a : String) : List ℚ :=
  (d.axisCtx a).values

/-- A value-based subset/filter constraint: a primitive exact value, a
nearest-neighbour `{target}` object, or a `{start, stop}` range object. -/
inductive VConstraint
  | exact (v : ℚ)
  | target (t : ℚ)
  | range (start stop : ℚ)
deriving DecidableEq, Repr

/-- An index-based subset constraint: a primitive integer index or a
`{start, stop[, step]}` object. -/
inductive IConstraint
  | index (i : Nat)
  | irange (start stop : Nat) (step : Option Nat)
deriving DecidableEq, Repr

/-- A per-concept capability record of the discovered API, as built by
`API._createCapabilities`: optional `identity`, `start`/`stop`, `target`
and `step` support flags plus the `dependency` list (absent ≙ `[]`). -/
structure Cap where
  identity : Bool
  start : Bool
  stop : Bool
  target : Bool
  step : Bool
  dependency : List Concept
deriving DecidableEq, Repr

instance {ε α : Type} [DecidableEq ε] [DecidableEq α] :
    DecidableEq (Except ε α) := fun
  | .error e, .error e' =>
    if h : e = e' then .isTrue (by rw [h])
    else .isFalse (by intro hc; cases hc; exact h rfl)
  | .error _, .ok _ => .isFalse (by intro hc; cases hc)
  | .ok _, .error _ => .isFalse (by intro hc; cases hc)
  | .ok a, .ok b =>
    if h : a = b then .isTrue (by rw [h])
    else .isFalse (by intro hc; cases hc; exact h rfl)

/-- JavaScript truthiness of a constraint value: the number `0` (a
primitive exact constraint) is falsy, every object is truthy. -/
def jsTruthy : VConstraint → Bool
  | .exact v => decide (v ≠ 0)
  | _ => true

/-- JavaScript `<=` on possibly-undefined numbers: any comparison with
`undefined`/`NaN` is `false`. -/
def jsLe : Option ℚ → Option ℚ → Bool
  | some a, some b => decide (a ≤ b)
  | _, _ => false

/-- JavaScript `<` on possibly-undefined numbers. -/
def jsLt : Option ℚ → Option ℚ → Bool
  | some a, some b => decide (a < b)
  | _, _ => false

/-- JavaScript object assignment `obj[k] = v` on an association list:
overwrite in place if the key exists, else append. -/
def objInsert {α β : Type} [BEq α] (l : List (α × β)) (k : α) (v : β) :
    List (α × β) :=
  if l.any (fun p => p.1 == k) then
    l.map (fun p => if p.1 == k then (k, v) else p)
  else
    l ++ [(k, v)]

/-- The `cleanedConstraints` helper: drop `undefined`/`null` entries,
keeping key order. -/
def cleanedConstraints {α : Type} (raw : List (String × Option α)) :
    List (String × α) :=
  raw.filterMap (fun p => p.2.map (fun v => (p.1, v)))

/-- The `requiresSubsetting` helper: the constraints can have an effect
iff some constrained axis has more than one value. -/
def requiresSubsetting {α : Type} (d : Domain) (cons : List (String × α)) :
    Bool :=
  cons.any (fun p => decide (1 < (d.axisValues p.1).length))

/-- Nearest-neighbour candidate pair.  Modelled from the spec: the
repository's `arrays.js` (`indicesOfNearest`) is not part of the provided
sources; §4.4 describes a binary-search nearest-neighbour lookup over the
ascending or descending axis values that compares the candidate at the
insertion point with its predecessor, clamped at the array ends, with an
exact hit collapsing both candidates to the hit index.  Comparisons with
an undefined search value are `false`, as in JavaScript. -/
def indicesOfNearest (a : List ℚ) (x : Option ℚ) : Nat × Nat :=
  if a.isEmpty then (0, 0)
  else
    let asc : Bool := a.length == 1 || decide (a.getD 0 0 < a.getD 1 0)
    let ip : Nat :=
      if asc then a.findIdx (fun v => jsLe x (some v))
      else a.findIdx (fun v => jsLe (some v) x)
    if ip == a.length then (a.length - 1, a.length - 1)
    else if some (a.getD ip 0) == x then (ip, ip)
    else if ip == 0 then (0, 0)
    else (ip - 1, ip)

/-- The `getClosestIndexArr` helper: pick whichever nearest-neighbour
candidate has the smaller absolute distance, the lower index on ties. -/
def getClosestIndexArr (vals : List ℚ) (x : Option ℚ) : Nat :=
  let lo := (indicesOfNearest vals x).1
  let hi := (indicesOfNearest vals x).2
  if jsLe (x.map (fun w => |w - vals.getD lo 0|))
          (x.map (fun w => |w - vals.getD hi 0|)) then lo else hi

/-- The `prepareForAxisArraySearch` helper (one search value): convert an
ISO time axis and its search value to timestamps, or wrap a longitude
search value; `undefined` stays undefined (`new Date(undefined)` is an
invalid date, i.e. `NaN`). -/
def prepareForAxisArraySearch (ax : AxisCtx) (v : Option ℚ) :
    List ℚ × Option ℚ :=
  if ax.isTime then (ax.values.map ax.toTime, v.map ax.toTime)
  else if ax.isLon then (ax.values, v.map ax.lonWrap)
  else (ax.values, v)

/-- The `prepareForAxisArraySearch` helper for two search values
(`start`, `stop`). -/
def prepareForAxisArraySearch2 (ax : AxisCtx) (v w : Option ℚ) :
    List ℚ × Option ℚ × Option ℚ :=
  if ax.isTime then
    (ax.values.map ax.toTime, v.map ax.toTime, w.map ax.toTime)
  else if ax.isLon then (ax.values, v.map ax.lonWrap, w.map ax.lonWrap)
  else (ax.values, v, w)

/-- The `getClosestIndex` helper: normalize, then search. -/
def getClosestIndex (d : Domain) (a : String) (v : Option ℚ) : Nat :=
  let p := prepareForAxisArraySearch (d.axisCtx a) v
  getClosestIndexArr p.1 p.2

/-- The `getAxisExtent` helper: min/max of first and last value, extended
by half a cell size on each end when the axis has more than one value. -/
def getAxisExtent (vals : List ℚ) : ℚ × ℚ :=
  let v0 := vals.getD 0 0
  let vLast := vals.getD (vals.length - 1) 0
  let p := if v0 > vLast then (vLast, v0) else (v0, vLast)
  if 1 < vals.length then
    let halfSize := |vals.getD 0 0 - vals.getD 1 0| / 2
    (p.1 - halfSize, p.2 + halfSize)
  else p

/-- The per-axis body of the `getAxisConcepts` loop: find the referencing
entries containing the axis; with exactly one match, derive the concept
from the system type (and, for horizontal systems, from the axis's
position among the components); otherwise no concept. -/
def axisConceptOf (d : Domain) (a : String) : Option Concept :=
  let ref := d.referencing.filter (fun e => e.components.contains a)
  if ref.length == 1 then
    let e := ref.getD 0 default
    match e.system with
    | .temporalRS => some Concept.time
    | .verticalCRS => some Concept.vertical
    | .geodeticCRS | .projectedCRS =>
      let idx := e.components.indexOf a
      if idx == 0 then some Concept.x
      else if idx == 1 then some Concept.y
      else if idx == 2 then some Concept.vertical
      else none
    | .other => none
  else none

/-- The `getAxisConcepts` resolver: map each axis identifier to its API
concept by inspecting the referencing entries; an axis in zero or several
entries, or at an unexpected position, gets no concept. -/
def getAxisConcepts (d : Domain) : List (String × Option Concept) :=
  d.axes.map (fun p => (p.1, axisConceptOf d p.1))

/-- Lookup in the axis-concept map; a non-domain axis key yields no
concept (JavaScript `axisMap[axis]` is `undefined`). -/
def lookupConcept (m : List (String × Option Concept)) (a : String) :
    Option Concept :=
  (m.lookup a).join

/-- Specification rendering of the axis-concept rule, written from the
claim's words: an axis belonging to exactly one referencing entry is
mapped to `time` for a Temporal system, to `vertical` for a Vertical
system, and for Geodetic/Projected systems by its zero-based position
(0 ↦ x, 1 ↦ y, 2 ↦ vertical, beyond ↦ unknown); an axis in zero or more
than one entry is unknown. -/
def axisConceptSpec (d : Domain) (a : String) : Option Concept :=
  match d.referencing.filter (fun e => e.components.contains a) with
  | [e] =>
    match e.system with
    | .temporalRS => some Concept.time
    | .verticalCRS => some Concept.vertical
    | .geodeticCRS | .projectedCRS =>
      match e.components.indexOf a with
      | 0 => some Concept.x
      | 1 => some Concept.y
      | 2 => some Concept.vertical
      | _ => none
    | .other => none
  | _ => none

/-- Per-axis decision of the value-based splitter: delegate (with the
possibly rewritten constraint, keyed by the resolved concept) or apply
locally (with the original constraint, keyed by the axis id). -/
inductive Decision
  | toApi (c : Concept) (v : VConstraint)
  | toLocal
deriving DecidableEq, Repr

/-- Body of the per-axis loop of `wrappedSubsetByValue` once the
capability record of the axis's concept has been found.  The exact
(non-object) branch passes `constraint.target` to `getClosestIndex`, and
on a primitive constraint that property access yields `undefined` — the
probe therefore does not depend on the requested value. -/
def decideAxisByValue (d : Domain) (a : String) (cap : Cap)
    (con : VConstraint) : Except String (Option VConstraint) :=
  match con with
  | .exact v =>
    if cap.identity then .ok (some con)
    else if cap.start && cap.stop then
      let idx := getClosestIndex d a none
      let val := (d.axisValues a).getD idx 0
      let ax := d.axisCtx a
      if ax.isTime then
        if ax.toTime val = ax.toTime v then .ok (some (.range v v))
        else .ok none
      else if val = v then .ok (some (.range v v))
      else .ok none
    else .ok none
  | .target t =>
    if cap.target then .ok (some con)
    else if cap.start && cap.stop then
      let p := prepareForAxisArraySearch (d.axisCtx a) (some t)
      let ext := getAxisExtent p.1
      if jsLe (some ext.1) p.2 && jsLe p.2 (some ext.2) then
        let idx := getClosestIndex d a (some t)
        let val := (d.axisValues a).getD idx 0
        .ok (some (.range val val))
      else .ok none
    else .ok none
  | .range s e =>
    if cap.start && cap.stop then
      let p := prepareForAxisArraySearch2 (d.axisCtx a) (some s) (some e)
      let ext := getAxisExtent p.1
      if jsLt p.2.2 (some ext.1) || jsLt (some ext.2) p.2.1 then
        .error "start or stop must be inside the axis extent"
      else
        let iS := getClosestIndexArr p.1 p.2.1
        let iE := getClosestIndexArr p.1 p.2.2
        let av := d.axisValues a
        .ok (some (.range (av.getD iS 0) (av.getD iE 0)))
    else .ok none

/-- Per-axis decision of `wrappedSubsetByValue`: resolve the axis's
concept and capability record (`caps[axisMap[axis]]`, local when either
is missing), then apply the decision table. -/
def splitAxisByValue (d : Domain) (caps : List (Concept × Cap))
    (axisMap : List (String × Option Concept)) (a : String)
    (con : VConstraint) : Except String Decision :=
  match lookupConcept axisMap a with
  | none => .ok .toLocal
  | some c =>
    match caps.lookup c with
    | none => .ok .toLocal
    | some cap =>
      match decideAxisByValue d a cap con with
      | .error e => .error e
      | .ok (some v) => .ok (.toApi c v)
      | .ok none => .ok .toLocal

/-- The per-axis split loop of `wrappedSubsetByValue`, accumulating the
remote (concept-keyed) and local (axis-keyed) constraint objects. -/
def splitByValueLoop (d : Domain) (caps : List (Concept × Cap))
    (axisMap : List (String × Option Concept)) :
    List (String × VConstraint) →
    List (Concept × VConstraint) × List (String × VConstraint) →
    Except String
      (List (Concept × VConstraint) × List (String × VConstraint))
  | [], st => .ok st
  | (a, con) :: rest, st =>
    match splitAxisByValue d caps axisMap a con with
    | .error e => .error e
    | .ok (.toApi c v) =>
      splitByValueLoop d caps axisMap rest (objInsert st.1 c v, st.2)
    | .ok .toLocal =>
      splitByValueLoop d caps axisMap rest (st.1, objInsert st.2 a con)

/-- One step of `toLocalConstraintsIfDependencyMissing` for concept `c`:
if some dependency is missing from (or falsy in) the current remote
object, demote `c`'s constraint to the local object, keyed by the first
axis resolving to `c`. -/
def repairStep {α β : Type} (truthy : α → Bool) (inj : α → β)
    (caps : List (Concept × Cap))
    (axisConcepts : List (String × Option Concept))
    (st : List (Concept × α) × List (String × β)) (c : Concept) :
    List (Concept × α) × List (String × β) :=
  let depends := ((caps.lookup c).map Cap.dependency).getD []
  if depends.any (fun c2 =>
      match st.1.lookup c2 with
      | none => true
      | some v => !(truthy v)) then
    match st.1.lookup c with
    | some v =>
      (st.1.eraseP (fun p => p.1 == c),
       objInsert st.2
         (((axisConcepts.filter (fun p => p.2 == some c)).map
            Prod.fst).getD 0 "")
         (inj v))
    | none => st
  else st

/-- The dependency-repair loop over the snapshot of remote-plan keys. -/
def repairLoop {α β : Type} (truthy : α → Bool) (inj : α → β)
    (caps : List (Concept × Cap))
    (axisConcepts : List (String × Option Concept)) :
    List Concept → List (Concept × α) × List (String × β) →
    List (Concept × α) × List (String × β)
  | [], st => st
  | c :: rest, st =>
    repairLoop truthy inj caps axisConcepts rest
      (repairStep truthy inj caps axisConcepts st c)

/-- The `toLocalConstraintsIfDependencyMissing` function: iterate over the
keys of the remote constraint object (snapshot taken up front, as
`Object.keys` does) and demote every concept with an unmet dependency. -/
def toLocalConstraintsIfDependencyMissing {α β : Type} (truthy : α → Bool)
    (inj : α → β) (caps : List (Concept × Cap))
    (axisConcepts : List (String × Option Concept))
    (api : List (Concept × α)) (lcl : List (String × β)) :
    List (Concept × α) × List (String × β) :=
  repairLoop truthy inj caps axisConcepts (api.map Prod.fst) (api, lcl)

/-- The remote/local plan computed by `wrappedSubsetByValue`: per-axis
split followed by dependency repair. -/
def subsetByValuePlan (d : Domain) (caps : List (Concept × Cap))
    (cons : List (String × VConstraint)) :
    Except String
      (List (Concept × VConstraint) × List (String × VConstraint)) :=
  match splitByValueLoop d caps (getAxisConcepts d) cons ([], []) with
  | .error e => .error e
  | .ok st =>
    .ok (toLocalConstraintsIfDependencyMissing jsTruthy id caps
          (getAxisConcepts d) st.1 st.2)

/-- Result of a `wrappedSubsetByValue` execution:
* `wrappedSelf` — the already wrapped coverage is returned unchanged
  (no loader call, no underlying subset);
* `localOnly cons` — `coverage.subsetByValue(cons)`: the underlying
  coverage's own operation on the full cleaned constraints, returned
  without any re-wrapping (no loader call);
* `remoteThenLocal api lcl` — one loader call with the remote plan, then
  `subset.subsetByValue(lcl)` on the fetched coverage, returned without
  re-wrapping;
* `remoteWrapped api` — one loader call, then `wrap(subset, …)`: the
  fetched coverage re-wrapped with a freshly discovered capability
  descriptor. -/
inductive SubsetOutcome
  | wrappedSelf
  | localOnly (cons : List (String × VConstraint))
  | remoteThenLocal (api : List (Concept × VConstraint))
      (lcl : List (String × VConstraint))
  | remoteWrapped (api : List (Concept × VConstraint))
deriving DecidableEq, Repr

/-- Number of loader invocations an outcome performs. -/
def subsetLoaderCalls : SubsetOutcome → Nat
  | .wrappedSelf => 0
  | .localOnly _ => 0
  | .remoteThenLocal _ _ => 1
  | .remoteWrapped _ => 1

/-- The `wrappedSubsetByValue` executor (outcome level): clean the
constraints, short-circuit when no subsetting is required, compute the
plan, then fetch and compose. -/
def wrappedSubsetByValue (d : Domain) (caps : List (Concept × Cap))
    (raw : List (String × Option VConstraint)) :
    Except String SubsetOutcome :=
  let cons := cleanedConstraints raw
  if !(requiresSubsetting d cons) then .ok .wrappedSelf
  else
    match subsetByValuePlan d caps cons with
    | .error e => .error e
    | .ok st =>
      if st.1.isEmpty then .ok (.localOnly cons)
      else if !st.2.isEmpty then .ok (.remoteThenLocal st.1 st.2)
      else .ok (.remoteWrapped st.1)

/-- Remote-plan value of the index-based splitter: either the whole
constraint object under the generic `index` concept, or an emulated
axis-value range. -/
inductive IdxApiVal
  | whole (cons : List (String × IConstraint))
  | vrange (start stop : ℚ)
deriving DecidableEq, Repr

/-- Local-plan value of the index-based splitter: an original index
constraint, or a demoted (already rewritten) remote value. -/
inductive IdxLocalVal
  | orig (c : IConstraint)
  | demoted (v : IdxApiVal)
deriving DecidableEq, Repr

/-- The remote/local plan computed by `wrappedSubsetByIndex`: generic
index delegation when `caps.index` exists, otherwise per-axis emulation
of index constraints through axis values, followed by dependency
repair. -/
def subsetByIndexPlan (d : Domain) (caps : List (Concept × Cap))
    (cons : List (String × IConstraint)) :
    List (Concept × IdxApiVal) × List (String × IdxLocalVal) :=
  let axisMap := getAxisConcepts d
  let st :=
    if (caps.lookup Concept.index).isSome then
      ([(Concept.index, IdxApiVal.whole cons)], [])
    else
      cons.foldl (fun st p =>
        match lookupConcept axisMap p.1 with
        | none => (st.1, objInsert st.2 p.1 (IdxLocalVal.orig p.2))
        | some c =>
          match caps.lookup c with
          | none => (st.1, objInsert st.2 p.1 (IdxLocalVal.orig p.2))
          | some cap =>
            match p.2 with
            | .index i =>
              if cap.start && cap.stop then
                let val := (d.axisValues p.1).getD i 0
                (objInsert st.1 c (IdxApiVal.vrange val val), st.2)
              else (st.1, objInsert st.2 p.1 (IdxLocalVal.orig p.2))
            | .irange s e stp =>
              if stp.getD 0 == 0 then
                if cap.start && cap.stop then
                  let vs := (d.axisValues p.1).getD s 0
                  let ve := (d.axisValues p.1).getD e 0
                  (objInsert st.1 c (IdxApiVal.vrange vs ve), st.2)
                else (st.1, objInsert st.2 p.1 (IdxLocalVal.orig p.2))
              else (st.1, objInsert st.2 p.1 (IdxLocalVal.orig p.2)))
        ([], [])
  toLocalConstraintsIfDependencyMissing (fun _ => true) IdxLocalVal.demoted
    caps axisMap st.1 st.2

/-- Result of a `wrappedSubsetByIndex` execution (same reading as
`SubsetOutcome`). -/
inductive IdxOutcome
  | wrappedSelf
  | localOnly (cons : List (String × IConstraint))
  | remoteThenLocal (api : List (Concept × IdxApiVal))
      (lcl : List (String × IdxLocalVal))
  | remoteWrapped (api : List (Concept × IdxApiVal))
deriving DecidableEq, Repr

/-- Number of loader invocations an index outcome performs. -/
def idxLoaderCalls : IdxOutcome → Nat
  | .wrappedSelf => 0
  | .localOnly _ => 0
  | .remoteThenLocal _ _ => 1
  | .remoteWrapped _ => 1

/-- The `wrappedSubsetByIndex` executor (outcome level). -/
def wrappedSubsetByIndex (d : Domain) (caps : List (Concept × Cap))
    (raw : List (String × Option IConstraint)) : IdxOutcome :=
  let cons := cleanedConstraints raw
  if !(requiresSubsetting d cons) then .wrappedSelf
  else
    let st := subsetByIndexPlan d caps cons
    if st.1.isEmpty then .localOnly cons
    else if !st.2.isEmpty then .remoteThenLocal st.1 st.2
    else .remoteWrapped st.1

/-- The per-axis filter loop of `QueryProxy._doExecute`: a constraint is
delegated iff the concept's filter capability has `start` and `stop`. -/
def filterSplitLoop (caps : List (Concept × Cap))
    (axisMap : List (String × Option Concept)) :
    List (String × VConstraint) →
    List (Concept × VConstraint) × List (String × VConstraint) →
    List (Concept × VConstraint) × List (String × VConstraint)
  | [], st => st
  | (a, con) :: rest, st =>
    let st' :=
      match lookupConcept axisMap a with
      | none => (st.1, objInsert st.2 a con)
      | some c =>
        match caps.lookup c with
        | none => (st.1, objInsert st.2 a con)
        | some cap =>
          if cap.start && cap.stop then (objInsert st.1 c con, st.2)
          else (st.1, objInsert st.2 a con)
    filterSplitLoop caps axisMap rest st'

/-- The per-axis subset loop of `QueryProxy._doExecute`.  Note that on a
primitive constraint without identity support the source evaluates
`'target' in constraint`, which throws a `TypeError` on a primitive
operand. -/
def collSubsetSplitLoop (caps : List (Concept × Cap))
    (axisMap : List (String × Option Concept)) :
    List (String × VConstraint) →
    List (Concept × VConstraint) × List (String × VConstraint) →
    Except String
      (List (Concept × VConstraint) × List (String × VConstraint))
  | [], st => .ok st
  | (a, con) :: rest, st =>
    match lookupConcept axisMap a with
    | none => collSubsetSplitLoop caps axisMap rest
        (st.1, objInsert st.2 a con)
    | some c =>
      match caps.lookup c with
      | none => collSubsetSplitLoop caps axisMap rest
          (st.1, objInsert st.2 a con)
      | some cap =>
        match con with
        | .exact _ =>
          if cap.identity then
            collSubsetSplitLoop caps axisMap rest
              (objInsert st.1 c con, st.2)
          else .error "TypeError: cannot use in operator on a primitive"
        | .target _ =>
          if cap.target then
            collSubsetSplitLoop caps axisMap rest
              (objInsert st.1 c con, st.2)
          else collSubsetSplitLoop caps axisMap rest
              (st.1, objInsert st.2 a con)
        | .range _ _ =>
          if cap.start && cap.stop then
            collSubsetSplitLoop caps axisMap rest
              (objInsert st.1 c con, st.2)
          else collSubsetSplitLoop caps axisMap rest
              (st.1, objInsert st.2 a con)

/-- The remote and local plans computed by `QueryProxy._doExecute`:
remote filter/subset objects (after dependency repair), the embed object
actually forwarded, and the local filter/subset objects. -/
structure CollPlans where
  apiFilter : List (Concept × VConstraint)
  apiSubset : List (Concept × VConstraint)
  apiEmbed : List String
  lclFilter : List (String × VConstraint)
  lclSubset : List (String × VConstraint)
deriving DecidableEq, Repr

/-- Plan computation of `QueryProxy._doExecute`: the embed request is
forwarded only when both embed capabilities are present; filter and
subset constraints are split per axis and then dependency-repaired. -/
def collectionPlans (d : Domain) (capsF capsS : List (Concept × Cap))
    (embedDomain embedRange : Bool) (filt sub : List (String × VConstraint))
    (embedReq : List String) : Except String CollPlans :=
  let axisMap := getAxisConcepts d
  let apiEmbed := if embedDomain && embedRange then embedReq else []
  let fs := filterSplitLoop capsF axisMap filt ([], [])
  match collSubsetSplitLoop capsS axisMap sub ([], []) with
  | .error e => .error e
  | .ok ss =>
    let fr := toLocalConstraintsIfDependencyMissing jsTruthy id capsF
      axisMap fs.1 fs.2
    let sr := toLocalConstraintsIfDependencyMissing jsTruthy id capsS
      axisMap ss.1 ss.2
    .ok ⟨fr.1, sr.1, apiEmbed, fr.2, sr.2⟩

/-- Result of a `QueryProxy._doExecute` execution:
* `underlyingQuery filt sub embed` — `this._query.execute()`: the
  mirrored underlying query (which accumulated exactly the same
  constraints) executes locally, no loader call, no re-wrapping;
* `remoteThenLocalQuery p` — one loader call, then
  `resultCollection.query().filter(lclFilter).subset(lclSubset).execute()`
  on the fetched collection, returned without re-wrapping;
* `remoteWrapped p` — one loader call, then `wrap(resultCollection, …)`
  with a freshly discovered capability descriptor (embed headers carried
  over for paging). -/
inductive CollOutcome
  | underlyingQuery (filt sub : List (String × VConstraint))
      (embed : List String)
  | remoteThenLocalQuery (p : CollPlans)
  | remoteWrapped (p : CollPlans)
deriving DecidableEq, Repr

/-- Number of loader invocations a collection outcome performs. -/
def collLoaderCalls : CollOutcome → Nat
  | .underlyingQuery _ _ _ => 0
  | .remoteThenLocalQuery _ => 1
  | .remoteWrapped _ => 1

/-- The `QueryProxy._doExecute` executor (outcome level). -/
def collectionDoExecute (d : Domain) (capsF capsS : List (Concept × Cap))
    (embedDomain embedRange : Bool) (filt sub : List (String × VConstraint))
    (embedReq : List String) : Except String CollOutcome :=
  match collectionPlans d capsF capsS embedDomain embedRange filt sub
      embedReq with
  | .error e => .error e
  | .ok p =>
    if p.apiFilter.isEmpty && p.apiSubset.isEmpty && p.apiEmbed.isEmpty then
      .ok (.underlyingQuery filt sub embedReq)
    else if !p.lclSubset.isEmpty || !p.lclFilter.isEmpty then
      .ok (.remoteThenLocalQuery p)
    else .ok (.remoteWrapped p)

/-- A capability record with every flag off. -/
def emptyCap : Cap := ⟨false, false, false, false, false, []⟩

/-- The `startstop()` record of `API._createCapabilities`. -/
def startstopCap : Cap := { emptyCap with start := true, stop := true }

/-- The capability tables of the discovered API. -/
structure ApiCapabilities where
  filter : List (Concept × Cap)
  subset : List (Concept × Cap)
  embedDomain : Bool
  embedRange : Bool
deriving DecidableEq, Repr

/-- The `API._createCapabilities` builder: per supported URL property
group, add the corresponding capability records; bbox support introduces
the mutual `x ↔ y` dependency; vertical target support augments (or
creates) the vertical record; index support adds the generic `index`
record; Prefer-header support enables both embed parts. -/
def createCapabilities (bboxF timeF vertF bboxS timeS vertS vertTargetS
    indexS preferH : Bool) : ApiCapabilities :=
  let filt :=
    (if bboxF then
      [(Concept.x, { startstopCap with dependency := [Concept.y] }),
       (Concept.y, { startstopCap with dependency := [Concept.x] })]
     else []) ++
    (if timeF then [(Concept.time, startstopCap)] else []) ++
    (if vertF then [(Concept.vertical, startstopCap)] else [])
  let sub1 :=
    (if bboxS then
      [(Concept.x, { startstopCap with dependency := [Concept.y] }),
       (Concept.y, { startstopCap with dependency := [Concept.x] })]
     else []) ++
    (if timeS then [(Concept.time, startstopCap)] else []) ++
    (if vertS then [(Concept.vertical, startstopCap)] else [])
  let sub2 :=
    if vertTargetS then
      if (sub1.lookup Concept.vertical).isSome then
        sub1.map (fun p =>
          if p.1 == Concept.vertical then (p.1, { p.2 with target := true })
          else p)
      else sub1 ++ [(Concept.vertical, { emptyCap with target := true })]
    else sub1
  let sub3 :=
    if indexS then
      sub2 ++ [(Concept.index,
        { emptyCap with start := true, stop := true, step := true })]
    else sub2
  ⟨filt, sub3, preferH, preferH⟩

/-- The dependency list the repair loop consults for a concept. -/
def depOf (caps : List (Concept × Cap)) (c : Concept) : List Concept :=
  ((caps.lookup c).map Cap.dependency).getD []

/-- An axis is represented in the remote plan iff its resolved concept is
one of the plan's keys. -/
def inApi (axisMap : List (String × Option Concept))
    (api : List (Concept × VConstraint)) (a : String) : Prop :=
  ∃ c, lookupConcept axisMap a = some c ∧ c ∈ api.map Prod.fst

/-- The remote plan's keys mapped back to axis identifiers, with the same
first-axis-of-the-concept rule the demotion code uses. -/
def mappedBackAxes (axisMap : List (String × Option Concept))
    (api : List (Concept × VConstraint)) : List String :=
  (api.map Prod.fst).map (fun c =>
    ((axisMap.filter (fun p => p.2 == some c)).map Prod.fst).getD 0 "")

/-- Invariant of the splitter state: keys of both plans are duplicate
free; every remote concept is accounted for by a processed axis that is
not in the local plan; local keys are processed axes; and every processed
axis is represented in one of the two plans. -/
def PlanInv (am : List (String × Option Concept)) (done : List String)
    (A : List (Concept × VConstraint)) (L : List (String × VConstraint)) :
    Prop :=
  (A.map Prod.fst).Nodup ∧ (L.map Prod.fst).Nodup ∧
  (∀ c ∈ A.map Prod.fst,
    ∃ a, a ∈ done ∧ lookupConcept am a = some c ∧ a ∉ L.map Prod.fst) ∧
  L.map Prod.fst ⊆ done ∧
  (∀ a ∈ done, inApi am A a ∨ a ∈ L.map Prod.fst)

/-- A single-axis vertical domain with axis values `[0, 10, 20, 30]`,
used as a concrete test domain. -/
def exDomZ : Domain :=
  ⟨[("z", ⟨[0, 10, 20, 30], false, false, id, id⟩)],
   [⟨["z"], SystemType.verticalCRS⟩]⟩

/-- A capability table supporting only start/stop (range) subsetting on
the vertical concept. -/
def exCapsVert : List (Concept × Cap) := [(Concept.vertical, startstopCap)]

/-- Helper: a successful association-list lookup locates a member. -/
theorem lookup_mem {α β : Type} [BEq α] [LawfulBEq α] {l : List (α × β)}
    {k : α} {v : β} (h : l.lookup k = some v) : (k, v) ∈ l := by
  induction l with
  | nil => cases h
  | cons p t ih =>
    by_cases hk : (k == p.1) = true
    · have hke : k = p.1 := eq_of_beq hk
      simp only [List.lookup, hk] at h
      have : p.2 = v := by injection h
      subst hke
      rw [← this]
      exact List.mem_cons_self _ _
    · have hk' : (k == p.1) = false := by simpa using hk
      simp only [List.lookup, hk'] at h
      exact List.mem_cons_of_mem _ (ih h)

/-- Helper: lookup of an absent key yields `none`. -/
theorem lookup_eq_none_of_not_mem {α β : Type} [BEq α] [LawfulBEq α]
    (l : List (α × β)) (k : α) (h : k ∉ l.map Prod.fst) :
    l.lookup k = none := by
  induction l with
  | nil => rfl
  | cons p t ih =>
    have hne : k ≠ p.1 := by
      intro hk
      exact h (by simp [hk])
    have hk' : (k == p.1) = false := by simpa using hne
    simp only [List.lookup, hk']
    exact ih (fun hm => h (by simp [List.mem_cons]; right; simpa using hm))

/-- Helper: lookup of a present key yields some value. -/
theorem lookup_isSome_of_mem {α β : Type} [BEq α] [LawfulBEq α]
    (l : List (α × β)) (k : α) (h : k ∈ l.map Prod.fst) :
    ∃ v, l.lookup k = some v := by
  induction l with
  | nil => simp at h
  | cons p t ih =>
    by_cases hk : (k == p.1) = true
    · exact ⟨p.2, by simp [List.lookup, hk]⟩
    · have hk' : (k == p.1) = false := by simpa using hk
      simp only [List.lookup, hk']
      apply ih
      simp only [List.map_cons, List.mem_cons] at h
      rcases h with h | h
      · exact absurd (beq_iff_eq.mpr h) (by simpa using hk)
      · exact h

/-- Helper: erasing by key commutes with taking keys. -/
theorem keys_eraseP_eq_erase {α β : Type} [BEq α] (l : List (α × β))
    (k : α) :
    (l.eraseP (fun p => p.1 == k)).map Prod.fst
      = (l.map Prod.fst).erase k := by
  induction l with
  | nil => rfl
  | cons p t ih =>
    by_cases h : (p.1 == k) = true
    · simp [List.eraseP_cons, h, List.erase_cons]
    · have h' : (p.1 == k) = false := by simpa using h
      simp [List.eraseP_cons, h', List.erase_cons, ih]

/-- Helper: a repair step for a concept without dependencies changes
nothing. -/
theorem repairStep_of_dep_nil {α β : Type} (truthy : α → Bool)
    (inj : α → β) (caps : List (Concept × Cap))
    (am : List (String × Option Concept))
    (st : List (Concept × α) × List (String × β)) (c : Concept)
    (h : depOf caps c = []) :
    repairStep truthy inj caps am st c = st := by
  unfold repairStep
  rw [show ((caps.lookup c).map Cap.dependency).getD [] = [] from h]
  simp

/-- Helper: a repair step for a concept whose single dependency is
present with a truthy value changes nothing. -/
theorem repairStep_of_dep_satisfied {α β : Type} (truthy : α → Bool)
    (inj : α → β) (caps : List (Concept × Cap))
    (am : List (String × Option Concept))
    (st : List (Concept × α) × List (String × β)) (c c2 : Concept)
    (h : depOf caps c = [c2]) (v : α) (hv : st.1.lookup c2 = some v)
    (htv : truthy v = true) :
    repairStep truthy inj caps am st c = st := by
  unfold repairStep
  rw [show ((caps.lookup c).map Cap.dependency).getD [] = [c2] from h]
  simp [List.any_cons, List.any_nil, hv, htv]

/-- Helper: a repair loop whose every step fixes the state fixes the
state. -/
theorem repairLoop_id {α β : Type} (truthy : α → Bool) (inj : α → β)
    (caps : List (Concept × Cap)) (am : List (String × Option Concept))
    (S : List Concept)
    (st : List (Concept × α) × List (String × β))
    (h : ∀ c ∈ S, repairStep truthy inj caps am st c = st) :
    repairLoop truthy inj caps am S st = st := by
  induction S with
  | nil => rfl
  | cons c S' ih =>
    show repairLoop truthy inj caps am S'
      (repairStep truthy inj caps am st c) = st
    rw [h c (List.mem_cons_self _ _)]
    exact ih (fun c' hc' => h c' (List.mem_cons_of_mem _ hc'))

/-- Helper: an identity prefix of the snapshot can be dropped. -/
theorem repairLoop_append_id {α β : Type} (truthy : α → Bool)
    (inj : α → β) (caps : List (Concept × Cap))
    (am : List (String × Option Concept)) (S1 R : List Concept)
    (st : List (Concept × α) × List (String × β))
    (h : ∀ c ∈ S1, repairStep truthy inj caps am st c = st) :
    repairLoop truthy inj caps am (S1 ++ R) st
      = repairLoop truthy inj caps am R st := by
  induction S1 with
  | nil => rfl
  | cons c S' ih =>
    show repairLoop truthy inj caps am (S' ++ R)
      (repairStep truthy inj caps am st c) = _
    rw [h c (List.mem_cons_self _ _)]
    exact ih (fun c' hc' => h c' (List.mem_cons_of_mem _ hc'))

/-- Helper: processing the snapshot with exactly one demotable concept
(single missing dependency, identity everywhere else) erases exactly
that concept from the remote plan. -/
theorem repairLoop_single_demote {α β : Type} (truthy : α → Bool)
    (inj : α → β) (caps : List (Concept × Cap))
    (am : List (String × Option Concept)) (S1 S2 : List Concept)
    (c0 c2 : Concept) (api : List (Concept × α))
    (lcl : List (String × β))
    (hS1 : ∀ c ∈ S1, depOf caps c = [])
    (hS2 : ∀ c ∈ S2, depOf caps c = [])
    (hdep : depOf caps c0 = [c2])
    (hc2 : c2 ∉ api.map Prod.fst)
    (hc0 : c0 ∈ api.map Prod.fst) :
    ∃ lcl2, repairLoop truthy inj caps am (S1 ++ c0 :: S2) (api, lcl)
      = (api.eraseP (fun p => p.1 == c0), lcl2) := by
  rw [repairLoop_append_id truthy inj caps am S1 _ (api, lcl)
    (fun c hc => repairStep_of_dep_nil truthy inj caps am _ c (hS1 c hc))]
  obtain ⟨v, hv⟩ := lookup_isSome_of_mem api c0 hc0
  have hstep : repairStep truthy inj caps am (api, lcl) c0
      = (api.eraseP (fun p => p.1 == c0),
         objInsert lcl
           (((am.filter (fun p => p.2 == some c0)).map Prod.fst).getD 0 "")
           (inj v)) := by
    unfold repairStep
    rw [show ((caps.lookup c0).map Cap.dependency).getD [] = [c2]
      from hdep]
    have hnone : api.lookup c2 = none :=
      lookup_eq_none_of_not_mem api c2 hc2
    simp [List.any_cons, List.any_nil, hnone, hv]
  show (∃ lcl2, repairLoop truthy inj caps am S2
    (repairStep truthy inj caps am (api, lcl) c0) = _)
  rw [hstep]
  rw [repairLoop_id truthy inj caps am S2 _
    (fun c hc => repairStep_of_dep_nil truthy inj caps am _ c (hS2 c hc))]
  exact ⟨_, rfl⟩

/-- C3 — amended.  For capability tables whose only dependencies are the
mutual bounding-box pair (`x` depends on `y` iff `y` depends on `x`, and
`vertical`, `time`, `index` have no dependencies — exactly the shape
`API._createCapabilities` builds), one pass of the dependency repair
yields a closed remote plan: every dependency of every remaining concept
is still in the plan; in particular `x` remains iff `y` remains.
(Truthiness of the remote values is required because the source tests
`!apiConstraints[concept]`.)  The repair is a single forward pass and
does not re-check dependents of previously accepted concepts; closure
for longer dependency chains fails (see the counterexample). -/
theorem c3_bbox_dependency_closure (caps : List (Concept × Cap))
    (am : List (String × Option Concept))
    (api : List (Concept × VConstraint))
    (lcl : List (String × VConstraint))
    (Hx : depOf caps Concept.x = [] ∨
      (depOf caps Concept.x = [Concept.y] ∧
       depOf caps Concept.y = [Concept.x]))
    (Hy : depOf caps Concept.y = [] ∨
      (depOf caps Concept.y = [Concept.x] ∧
       depOf caps Concept.x = [Concept.y]))
    (Hv : depOf caps Concept.vertical = [])
    (Ht : depOf caps Concept.time = [])
    (Hi : depOf caps Concept.index = [])
    (Htruthy : ∀ p ∈ api, jsTruthy p.2 = true)
    (Hnodup : (api.map Prod.fst).Nodup) :
    ∀ c ∈ (toLocalConstraintsIfDependencyMissing jsTruthy id caps am api
        lcl).1.map Prod.fst,
      ∀ c2 ∈ depOf caps c,
        c2 ∈ (toLocalConstraintsIfDependencyMissing jsTruthy id caps am
          api lcl).1.map Prod.fst := by
  unfold toLocalConstraintsIfDependencyMissing
  by_cases hx : Concept.x ∈ api.map Prod.fst
  · by_cases hy : Concept.y ∈ api.map Prod.fst
    · have hid : ∀ c ∈ api.map Prod.fst,
          repairStep jsTruthy id caps am (api, lcl) c = (api, lcl) := by
        intro c _
        cases c with
        | x =>
          rcases Hx with hnil | ⟨hxy, _⟩
          · exact repairStep_of_dep_nil _ _ _ _ _ _ hnil
          · obtain ⟨v, hv⟩ := lookup_isSome_of_mem api Concept.y hy
            exact repairStep_of_dep_satisfied _ _ _ _ _ _ _ hxy v hv
              (Htruthy _ (lookup_mem hv))
        | y =>
          rcases Hy with hnil | ⟨hyx, _⟩
          · exact repairStep_of_dep_nil _ _ _ _ _ _ hnil
          · obtain ⟨v, hv⟩ := lookup_isSome_of_mem api Concept.x hx
            exact repairStep_of_dep_satisfied _ _ _ _ _ _ _ hyx v hv
              (Htruthy _ (lookup_mem hv))
        | vertical => exact repairStep_of_dep_nil _ _ _ _ _ _ Hv
        | time => exact repairStep_of_dep_nil _ _ _ _ _ _ Ht
        | index => exact repairStep_of_dep_nil _ _ _ _ _ _ Hi
      rw [repairLoop_id jsTruthy id caps am _ _ hid]
      intro c _ c2 hc2
      cases c with
      | x =>
        rcases Hx with hnil | ⟨hxy, _⟩
        · rw [hnil] at hc2; cases hc2
        · rw [hxy] at hc2
          rw [List.mem_singleton] at hc2
          subst hc2
          exact hy
      | y =>
        rcases Hy with hnil | ⟨hyx, _⟩
        · rw [hnil] at hc2; cases hc2
        · rw [hyx] at hc2
          rw [List.mem_singleton] at hc2
          subst hc2
          exact hx
      | vertical => rw [Hv] at hc2; cases hc2
      | time => rw [Ht] at hc2; cases hc2
      | index => rw [Hi] at hc2; cases hc2
    · rcases Hx with hnil | ⟨hxy, _⟩
      · have hid : ∀ c ∈ api.map Prod.fst,
            repairStep jsTruthy id caps am (api, lcl) c = (api, lcl) := by
          intro c hc
          cases c with
          | x => exact repairStep_of_dep_nil _ _ _ _ _ _ hnil
          | y => exact absurd hc hy
          | vertical => exact repairStep_of_dep_nil _ _ _ _ _ _ Hv
          | time => exact repairStep_of_dep_nil _ _ _ _ _ _ Ht
          | index => exact repairStep_of_dep_nil _ _ _ _ _ _ Hi
        rw [repairLoop_id jsTruthy id caps am _ _ hid]
        intro c hc c2 hc2
        cases c with
        | x => rw [hnil] at hc2; cases hc2
        | y => exact absurd hc hy
        | vertical => rw [Hv] at hc2; cases hc2
        | time => rw [Ht] at hc2; cases hc2
        | index => rw [Hi] at hc2; cases hc2
      · obtain ⟨S1, S2, hS⟩ := List.append_of_mem hx
        have hnodupS : (S1 ++ Concept.x :: S2).Nodup := by
          rw [← hS]; exact Hnodup
        have hxS1 : Concept.x ∉ S1 := by
          intro hmem
          exact (List.nodup_append.mp hnodupS).2.2 hmem
            (List.mem_cons_self _ _)
        have hxS2 : Concept.x ∉ S2 := by
          have h2 := (List.nodup_append.mp hnodupS).2.1
          rw [List.nodup_cons] at h2
          exact h2.1
        have hkeys : ∀ c, c ∈ S1 ∨ c ∈ S2 → c ∈ api.map Prod.fst := by
          intro c hc
          rw [hS]
          rcases hc with hc | hc
          · exact List.mem_append_left _ hc
          · exact List.mem_append_right _ (List.mem_cons_of_mem _ hc)
        have hS1 : ∀ c ∈ S1, depOf caps c = [] := by
          intro c hc
          cases c with
          | x => exact absurd hc hxS1
          | y => exact absurd (hkeys _ (Or.inl hc)) hy
          | vertical => exact Hv
          | time => exact Ht
          | index => exact Hi
        have hS2 : ∀ c ∈ S2, depOf caps c = [] := by
          intro c hc
          cases c with
          | x => exact absurd hc hxS2
          | y => exact absurd (hkeys _ (Or.inr hc)) hy
          | vertical => exact Hv
          | time => exact Ht
          | index => exact Hi
        rw [hS]
        obtain ⟨lcl2, heq⟩ := repairLoop_single_demote jsTruthy id caps
          am S1 S2 Concept.x Concept.y api lcl hS1 hS2 hxy hy hx
        rw [heq]
        intro c hc c2 hc2
        rw [keys_eraseP_eq_erase] at hc
        have hcne : c ≠ Concept.x ∧ c ∈ api.map Prod.fst :=
          (List.Nodup.mem_erase_iff Hnodup).mp hc
        cases c with
        | x => exact absurd rfl hcne.1
        | y => exact absurd hcne.2 hy
        | vertical => rw [Hv] at hc2; cases hc2
        | time => rw [Ht] at hc2; cases hc2
        | index => rw [Hi] at hc2; cases hc2
  · by_cases hy : Concept.y ∈ api.map Prod.fst
    · rcases Hy with hnil | ⟨hyx, _⟩
      · have hid : ∀ c ∈ api.map Prod.fst,
            repairStep jsTruthy id caps am (api, lcl) c = (api, lcl) := by
          intro c hc
          cases c with
          | x => exact absurd hc hx
          | y => exact repairStep_of_dep_nil _ _ _ _ _ _ hnil
          | vertical => exact repairStep_of_dep_nil _ _ _ _ _ _ Hv
          | time => exact repairStep_of_dep_nil _ _ _ _ _ _ Ht
          | index => exact repairStep_of_dep_nil _ _ _ _ _ _ Hi
        rw [repairLoop_id jsTruthy id caps am _ _ hid]
        intro c hc c2 hc2
        cases c with
        | x => exact absurd hc hx
        | y => rw [hnil] at hc2; cases hc2
        | vertical => rw [Hv] at hc2; cases hc2
        | time => rw [Ht] at hc2; cases hc2
        | index => rw [Hi] at hc2; cases hc2
      · obtain ⟨S1, S2, hS⟩ := List.append_of_mem hy
        have hnodupS : (S1 ++ Concept.y :: S2).Nodup := by
          rw [← hS]; exact Hnodup
        have hyS1 : Concept.y ∉ S1 := by
          intro hmem
          exact (List.nodup_append.mp hnodupS).2.2 hmem
            (List.mem_cons_self _ _)
        have hyS2 : Concept.y ∉ S2 := by
          have h2 := (List.nodup_append.mp hnodupS).2.1
          rw [List.nodup_cons] at h2
          exact h2.1
        have hkeys : ∀ c, c ∈ S1 ∨ c ∈ S2 → c ∈ api.map Prod.fst := by
          intro c hc
          rw [hS]
          rcases hc with hc | hc
          · exact List.mem_append_left _ hc
          · exact List.mem_append_right _ (List.mem_cons_of_mem _ hc)
        have hS1 : ∀ c ∈ S1, depOf caps c = [] := by
          intro c hc
          cases c with
          | x => exact absurd (hkeys _ (Or.inl hc)) hx
          | y => exact absurd hc hyS1
          | vertical => exact Hv
          | time => exact Ht
          | index => exact Hi
        have hS2 : ∀ c ∈ S2, depOf caps c = [] := by
          intro c hc
          cases c with
          | x => exact absurd (hkeys _ (Or.inr hc)) hx
          | y => exact absurd hc hyS2
          | vertical => exact Hv
          | time => exact Ht
          | index => exact Hi
        rw [hS]
        obtain ⟨lcl2, heq⟩ := repairLoop_single_demote jsTruthy id caps
          am S1 S2 Concept.y Concept.x api lcl hS1 hS2 hyx hx hy
        rw [heq]
        intro c hc c2 hc2
        rw [keys_eraseP_eq_erase] at hc
        have hcne : c ≠ Concept.y ∧ c ∈ api.map Prod.fst :=
          (List.Nodup.mem_erase_iff Hnodup).mp hc
        cases c with
        | x => exact absurd hcne.2 hx
        | y => exact absurd rfl hcne.1
        | vertical => rw [Hv] at hc2; cases hc2
        | time => rw [Ht] at hc2; cases hc2
        | index => rw [Hi] at hc2; cases hc2
    · have hid : ∀ c ∈ api.map Prod.fst,
          repairStep jsTruthy id caps am (api, lcl) c = (api, lcl) := by
        intro c hc
        cases c with
        | x => exact absurd hc hx
        | y => exact absurd hc hy
        | vertical => exact repairStep_of_dep_nil _ _ _ _ _ _ Hv
        | time => exact repairStep_of_dep_nil _ _ _ _ _ _ Ht
        | index => exact repairStep_of_dep_nil _ _ _ _ _ _ Hi
      rw [repairLoop_id jsTruthy id caps am _ _ hid]
      intro c hc c2 hc2
      cases c with
      | x => exact absurd hc hx
      | y => exact absurd hc hy
      | vertical => rw [Hv] at hc2; cases hc2
      | time => rw [Ht] at hc2; cases hc2
      | index => rw [Hi] at hc2; cases hc2

/-- C3 — witness for the amended theorem: with the capability table built
by `_createCapabilities` for bbox + time subsetting, and both `x` and `y`
(plus `time`) in the remote plan, the repaired plan keeps `x`, and the
theorem yields its dependency `y`. -/
theorem c3_bbox_dependency_closure_witness :
    Concept.x ∈ ((toLocalConstraintsIfDependencyMissing jsTruthy id
      (createCapabilities false false false true true false false false
        false).subset
      [("x", some Concept.x), ("y", some Concept.y),
       ("t", some Concept.time)]
      [(Concept.x, VConstraint.range 0 1), (Concept.y, VConstraint.range 2 3),
       (Concept.time, VConstraint.range 4 5)] []).1.map Prod.fst) ∧
    Concept.y ∈ ((toLocalConstraintsIfDependencyMissing jsTruthy id
      (createCapabilities false false false true true false false false
        false).subset
      [("x", some Concept.x), ("y", some Concept.y),
       ("t", some Concept.time)]
      [(Concept.x, VConstraint.range 0 1), (Concept.y, VConstraint.range 2 3),
       (Concept.time, VConstraint.range 4 5)] []).1.map Prod.fst) :=
  ⟨by decide,
   c3_bbox_dependency_closure
     (createCapabilities false false false true true false false false
       false).subset
     [("x", some Concept.x), ("y", some Concept.y),
      ("t", some Concept.time)]
     [(Concept.x, VConstraint.range 0 1), (Concept.y, VConstraint.range 2 3),
      (Concept.time, VConstraint.range 4 5)] []
     (by decide) (by decide) (by decide) (by decide) (by decide)
     (by decide) (by decide)
     Concept.x (by decide) Concept.y (by decide)⟩

/-- Helper: a list is non-empty iff `isEmpty` is `false`. -/
theorem isEmptyFalseIff {alpha : Type} (l : List alpha) :
    l.isEmpty = false ↔ l ≠ [] := by
  cases l <;> simp

/-- Helper: a list is empty iff `isEmpty` is `true`. -/
theorem isEmptyTrueIff {alpha : Type} (l : List alpha) :
    l.isEmpty = true ↔ l = [] := by
  cases l <;> simp

/-- C4 — counterexample.  Axis `z` covers `[0, 30]` (extent `[-5, 35]`
with the half-cell margin); the capability supports range but not nearest
matching; yet `subsetByValue({z: Nearest(100)})` neither throws nor calls
the loader: the constraint is silently routed to local evaluation, contra
the claim that the call fails fatally before any network call. -/
theorem c4_out_of_extent_local_counterexample :
    wrappedSubsetByValue exDomZ exCapsVert
        [("z", some (VConstraint.target 100))]
      = Except.ok (SubsetOutcome.localOnly [("z", VConstraint.target 100)]) ∧
    getAxisExtent (exDomZ.axisValues "z") = (-5, 35) ∧
    ((35 : ℚ) < 100) ∧
    subsetLoaderCalls (SubsetOutcome.localOnly
      [("z", VConstraint.target 100)]) = 0 := by
  decide

/-- C5 — counterexample.  For `Range(-100, 100)` on the same axis both
`start` and `stop` lie outside the extent `[-5, 35]`, yet no fatal error
is raised: the range straddles the axis, so the source snaps both ends
and delegates `Range(0, 30)` remotely, contra the claim that both
endpoints being outside the extent is fatal. -/
theorem c5_straddle_counterexample :
    splitAxisByValue exDomZ exCapsVert (getAxisConcepts exDomZ) "z"
        (VConstraint.range (-100) 100)
      = Except.ok (Decision.toApi Concept.vertical
          (VConstraint.range 0 30)) ∧
    getAxisExtent (exDomZ.axisValues "z") = (-5, 35) ∧
    ((-100 : ℚ) < -5) ∧ ((35 : ℚ) < 100) := by
  decide

/-- C6 — the code at the claim's failing input.  With values
`[0, 10, 20, 30]`, range-only capability and the exact constraint `10`,
the nearest axis value to the requested value is `10` itself (index 1),
so the claimed emulation would rewrite to `Range(10, 10)` and delegate
remotely; the source instead passes `constraint.target` — `undefined` on
a primitive constraint — to the nearest-index search, so the equality
test compares against an axis value unrelated to the request and the
constraint is routed to local evaluation. -/
theorem c6_exact_emulation_bug :
    splitAxisByValue exDomZ exCapsVert (getAxisConcepts exDomZ) "z"
        (VConstraint.exact 10)
      = Except.ok Decision.toLocal ∧
    getClosestIndex exDomZ "z" (some 10) = 1 ∧
    (exDomZ.axisValues "z").getD 1 0 = 10 := by
  decide

/-- C1 — counterexample.  Two axes `t1`, `t2` in separate temporal
referencing entries both resolve to the concept `time`; with both
constrained, the second remote assignment overwrites the first, so the
remote plan keyed by concept has a single entry, the local plan is empty,
and mapping the remote plan back to axis ids (first axis of the concept,
as the demotion code does) yields only `t1`: axis `t2` is in neither
output, contra the claim that every cleaned axis key ends up in exactly
one of the two outputs. -/
theorem c1_duplicate_concept_counterexample :
    subsetByValuePlan
        ⟨[("t1", ⟨[0, 10], false, false, id, id⟩),
          ("t2", ⟨[0, 10], false, false, id, id⟩)],
         [⟨["t1"], SystemType.temporalRS⟩, ⟨["t2"], SystemType.temporalRS⟩]⟩
        [(Concept.time, startstopCap)]
        [("t1", VConstraint.range 0 0), ("t2", VConstraint.range 10 10)]
      = Except.ok ([(Concept.time, VConstraint.range 10 10)], []) ∧
    mappedBackAxes
        (getAxisConcepts
          ⟨[("t1", ⟨[0, 10], false, false, id, id⟩),
            ("t2", ⟨[0, 10], false, false, id, id⟩)],
           [⟨["t1"], SystemType.temporalRS⟩,
            ⟨["t2"], SystemType.temporalRS⟩]⟩)
        [(Concept.time, VConstraint.range 10 10)] = ["t1"] ∧
    ¬ ("t2" ∈ (["t1"] : List String)) := by
  decide

/-- C3 — counterexample.  With capability dependencies
`time → [vertical]` and `vertical → [y]`, and both `time` and `vertical`
accepted remotely, the single forward repair pass keeps `time` (its
dependency `vertical` is still present when `time` is checked) and then
demotes `vertical` (its dependency `y` is missing); `time` survives in
the remote plan although its dependency `vertical` does not, contra the
claimed re-checking of dependents of previously accepted concepts. -/
theorem c3_chain_counterexample :
    toLocalConstraintsIfDependencyMissing jsTruthy id
        [(Concept.time, { startstopCap with dependency := [Concept.vertical] }),
         (Concept.vertical, { startstopCap with dependency := [Concept.y] })]
        [("t", some Concept.time), ("z", some Concept.vertical)]
        [(Concept.time, VConstraint.range 1 1),
         (Concept.vertical, VConstraint.range 2 2)] []
      = ([(Concept.time, VConstraint.range 1 1)],
         [("z", VConstraint.range 2 2)]) ∧
    depOf
        [(Concept.time, { startstopCap with dependency := [Concept.vertical] }),
         (Concept.vertical, { startstopCap with dependency := [Concept.y] })]
        Concept.time = [Concept.vertical] ∧
    ¬ (Concept.vertical ∈
        ([(Concept.time, VConstraint.range 1 1)].map Prod.fst)) := by
  decide

/-- C4 — amended.  For a `Nearest(target)` constraint on an axis whose
capability supports range but not nearest matching, a target lying
outside the covered extent (axis min/max extended by half a cell) makes
the splitter route the constraint to local evaluation: no error is
raised and no remote request is produced for that axis.  (The fatal
pre-network extent error exists only for `Range` constraints lying
entirely outside the extent.) -/
theorem c4_out_of_extent_nearest_local (d : Domain)
    (caps : List (Concept × Cap))
    (axisMap : List (String × Option Concept)) (a : String) (t : ℚ)
    (c : Concept) (cap : Cap)
    (hc : lookupConcept axisMap a = some c)
    (hcap : caps.lookup c = some cap)
    (hnt : cap.target = false) (hst : cap.start = true)
    (hsp : cap.stop = true)
    (hout : (jsLe
        (some (getAxisExtent
          (prepareForAxisArraySearch (d.axisCtx a) (some t)).1).1)
        (prepareForAxisArraySearch (d.axisCtx a) (some t)).2 &&
      jsLe (prepareForAxisArraySearch (d.axisCtx a) (some t)).2
        (some (getAxisExtent
          (prepareForAxisArraySearch (d.axisCtx a) (some t)).1).2))
      = false) :
    splitAxisByValue d caps axisMap a (VConstraint.target t)
      = Except.ok Decision.toLocal := by
  simp only [splitAxisByValue, hc, hcap, decideAxisByValue, hnt, hst, hsp,
    Bool.false_eq_true, if_false, Bool.and_self, if_true, hout]

/-- C4 — witness for the amended theorem at `Nearest(100)` on the
`[0, 30]` vertical axis with range-only support. -/
theorem c4_out_of_extent_nearest_local_witness :
    lookupConcept (getAxisConcepts exDomZ) "z" = some Concept.vertical ∧
    exCapsVert.lookup Concept.vertical = some startstopCap ∧
    splitAxisByValue exDomZ exCapsVert (getAxisConcepts exDomZ) "z"
      (VConstraint.target 100) = Except.ok Decision.toLocal :=
  ⟨by decide, by decide,
    c4_out_of_extent_nearest_local exDomZ exCapsVert
      (getAxisConcepts exDomZ) "z" 100 Concept.vertical startstopCap
      (by decide) (by decide) (by decide) (by decide) (by decide)
      (by decide)⟩

/-- C5 — amended.  For a `Range(start, stop)` constraint on an axis whose
capability supports range matching: if the normalized range lies
entirely outside the axis extent (normalized stop below the extent
minimum, or normalized start above the extent maximum) the splitter
throws the fatal extent error before any loader call; otherwise start
and stop are independently snapped to the nearest axis values and the
snapped range is delegated remotely.  (A range that straddles the axis —
both endpoints outside the extent but on opposite sides — is snapped,
not rejected.) -/
theorem c5_range_snap_or_error (d : Domain) (caps : List (Concept × Cap))
    (axisMap : List (String × Option Concept)) (a : String) (s e : ℚ)
    (c : Concept) (cap : Cap)
    (hc : lookupConcept axisMap a = some c)
    (hcap : caps.lookup c = some cap)
    (hst : cap.start = true) (hsp : cap.stop = true) :
    ((jsLt (prepareForAxisArraySearch2 (d.axisCtx a) (some s) (some e)).2.2
        (some (getAxisExtent
          (prepareForAxisArraySearch2 (d.axisCtx a) (some s)
            (some e)).1).1) ||
      jsLt (some (getAxisExtent
          (prepareForAxisArraySearch2 (d.axisCtx a) (some s)
            (some e)).1).2)
        (prepareForAxisArraySearch2 (d.axisCtx a) (some s) (some e)).2.1)
      = true →
      splitAxisByValue d caps axisMap a (VConstraint.range s e)
        = Except.error "start or stop must be inside the axis extent") ∧
    ((jsLt (prepareForAxisArraySearch2 (d.axisCtx a) (some s) (some e)).2.2
        (some (getAxisExtent
          (prepareForAxisArraySearch2 (d.axisCtx a) (some s)
            (some e)).1).1) ||
      jsLt (some (getAxisExtent
          (prepareForAxisArraySearch2 (d.axisCtx a) (some s)
            (some e)).1).2)
        (prepareForAxisArraySearch2 (d.axisCtx a) (some s) (some e)).2.1)
      = false →
      splitAxisByValue d caps axisMap a (VConstraint.range s e)
        = Except.ok (Decision.toApi c (VConstraint.range
            ((d.axisValues a).getD
              (getClosestIndexArr
                (prepareForAxisArraySearch2 (d.axisCtx a) (some s)
                  (some e)).1
                (prepareForAxisArraySearch2 (d.axisCtx a) (some s)
                  (some e)).2.1) 0)
            ((d.axisValues a).getD
              (getClosestIndexArr
                (prepareForAxisArraySearch2 (d.axisCtx a) (some s)
                  (some e)).1
                (prepareForAxisArraySearch2 (d.axisCtx a) (some s)
                  (some e)).2.2) 0)))) := by
  constructor
  · intro hbad
    simp only [splitAxisByValue, hc, hcap, decideAxisByValue, hst, hsp,
      Bool.and_self, if_true, hbad]
  · intro hgood
    simp only [splitAxisByValue, hc, hcap, decideAxisByValue, hst, hsp,
      Bool.and_self, if_true, hgood, Bool.false_eq_true, if_false]

/-- C5 — witness for the amended theorem: `Range(4, 26)` on the
`[0, 10, 20, 30]` axis is snapped to `Range(0, 30)` and delegated, and
`Range(40, 100)` (entirely above the extent) is rejected fatally. -/
theorem c5_range_snap_or_error_witness :
    splitAxisByValue exDomZ exCapsVert (getAxisConcepts exDomZ) "z"
      (VConstraint.range 4 26)
      = Except.ok (Decision.toApi Concept.vertical
          (VConstraint.range 0 30)) ∧
    splitAxisByValue exDomZ exCapsVert (getAxisConcepts exDomZ) "z"
      (VConstraint.range 40 100)
      = Except.error "start or stop must be inside the axis extent" := by
  constructor
  · have h := (c5_range_snap_or_error exDomZ exCapsVert
      (getAxisConcepts exDomZ) "z" 4 26 Concept.vertical startstopCap
      (by decide) (by decide) (by decide) (by decide)).2 (by decide)
    rw [h]; decide
  · exact (c5_range_snap_or_error exDomZ exCapsVert
      (getAxisConcepts exDomZ) "z" 40 100 Concept.vertical startstopCap
      (by decide) (by decide) (by decide) (by decide)).1 (by decide)

/-- C2 — confirmed.  Coverage subsetting: once a plan is computed, an
empty remote part yields `localOnly` (the underlying coverage's own
subset operation on the cleaned constraints, no re-wrapping, no loader
call); a non-empty remote part with a non-empty local part yields
`remoteThenLocal` (underlying subset operation on the fetched coverage,
no re-wrapping); a non-empty remote part with an empty local part yields
`remoteWrapped` (`wrap()` with a freshly discovered descriptor).
Collection queries: a loader-backed outcome applies the underlying query
chain (no re-wrapping) exactly when some local plan part is non-empty,
and re-wraps via `wrap()` exactly when both local parts are empty. -/
theorem c2_compose_no_rewrap :
    (∀ (d : Domain) (caps : List (Concept × Cap))
       (raw : List (String × Option VConstraint))
       (api : List (Concept × VConstraint))
       (lcl : List (String × VConstraint)),
       requiresSubsetting d (cleanedConstraints raw) = true →
       subsetByValuePlan d caps (cleanedConstraints raw)
         = Except.ok (api, lcl) →
       (api = [] →
         wrappedSubsetByValue d caps raw
           = Except.ok (SubsetOutcome.localOnly (cleanedConstraints raw))) ∧
       (api ≠ [] → lcl ≠ [] →
         wrappedSubsetByValue d caps raw
           = Except.ok (SubsetOutcome.remoteThenLocal api lcl)) ∧
       (api ≠ [] → lcl = [] →
         wrappedSubsetByValue d caps raw
           = Except.ok (SubsetOutcome.remoteWrapped api))) ∧
    (∀ (d : Domain) (capsF capsS : List (Concept × Cap))
       (eD eR : Bool) (filt sub : List (String × VConstraint))
       (embedReq : List String) (o : CollOutcome),
       collectionDoExecute d capsF capsS eD eR filt sub embedReq
         = Except.ok o →
       (∀ p, o = CollOutcome.remoteThenLocalQuery p →
          p.lclFilter ≠ [] ∨ p.lclSubset ≠ []) ∧
       (∀ p, o = CollOutcome.remoteWrapped p →
          p.lclFilter = [] ∧ p.lclSubset = [])) := by
  constructor
  · intro d caps raw api lcl hreq hplan
    refine ⟨?_, ?_, ?_⟩
    · intro hapi
      subst hapi
      simp [wrappedSubsetByValue, hreq, hplan]
    · intro hapi hlcl
      simp [wrappedSubsetByValue, hreq, hplan, List.isEmpty_iff, hapi, hlcl]
    · intro hapi hlcl
      subst hlcl
      simp [wrappedSubsetByValue, hreq, hplan, List.isEmpty_iff, hapi]
  · intro d capsF capsS eD eR filt sub embedReq o hexec
    unfold collectionDoExecute at hexec
    cases hp : collectionPlans d capsF capsS eD eR filt sub embedReq with
    | error e =>
      rw [hp] at hexec
      dsimp only at hexec
      cases hexec
    | ok p =>
      rw [hp] at hexec
      dsimp only at hexec
      by_cases hempty :
          (p.apiFilter.isEmpty && (p.apiSubset.isEmpty
            && p.apiEmbed.isEmpty)) = true
      · rw [if_pos (by simpa [Bool.and_assoc] using hempty)] at hexec
        cases hexec
        constructor
        · intro q hq; cases hq
        · intro q hq; cases hq
      · rw [if_neg (by simpa [Bool.and_assoc] using hempty)] at hexec
        by_cases hlcl :
            (!p.lclSubset.isEmpty || !p.lclFilter.isEmpty) = true
        · rw [if_pos hlcl] at hexec
          cases hexec
          constructor
          · intro q hq
            cases hq
            simp only [Bool.or_eq_true, Bool.not_eq_true'] at hlcl
            rcases hlcl with h | h
            · exact Or.inr ((isEmptyFalseIff _).mp h)
            · exact Or.inl ((isEmptyFalseIff _).mp h)
          · intro q hq; cases hq
        · rw [if_neg hlcl] at hexec
          cases hexec
          constructor
          · intro q hq; cases hq
          · intro q hq
            cases hq
            rw [Bool.not_eq_true] at hlcl
            simp only [Bool.or_eq_false_iff, Bool.not_eq_false',
              isEmptyTrueIff] at hlcl
            exact ⟨hlcl.2, hlcl.1⟩

/-- C2 — witness: a demoted bbox `x` constraint together with a remote
time constraint yields `remoteThenLocal` with exactly the computed
plan. -/
theorem c2_compose_no_rewrap_witness :
    wrappedSubsetByValue
        ⟨[("x", ⟨[0, 10], false, false, id, id⟩),
          ("t", ⟨[0, 10], false, false, id, id⟩)],
         [⟨["x", "yy"], SystemType.geodeticCRS⟩,
          ⟨["t"], SystemType.temporalRS⟩]⟩
        (createCapabilities false false false true true false false false
          false).subset
        [("x", some (VConstraint.range 0 10)),
         ("t", some (VConstraint.range 0 10))]
      = Except.ok (SubsetOutcome.remoteThenLocal
          [(Concept.time, VConstraint.range 0 10)]
          [("x", VConstraint.range 0 10)]) :=
  (c2_compose_no_rewrap.1
    ⟨[("x", ⟨[0, 10], false, false, id, id⟩),
      ("t", ⟨[0, 10], false, false, id, id⟩)],
     [⟨["x", "yy"], SystemType.geodeticCRS⟩,
      ⟨["t"], SystemType.temporalRS⟩]⟩
    (createCapabilities false false false true true false false false
      false).subset
    [("x", some (VConstraint.range 0 10)),
     ("t", some (VConstraint.range 0 10))]
    [(Concept.time, VConstraint.range 0 10)]
    [("x", VConstraint.range 0 10)]
    (by decide) (by decide)).2.1 (by decide) (by decide)

/-- C7 — confirmed.  A collection query whose computed remote plans for
filter and subset are empty and whose embed request is empty executes
the mirrored underlying query with zero loader calls; in particular a
query with no constraints at all issues zero loader calls and hands the
unchanged accumulators to the underlying query (whose execution with no
constraints returns the input object, per the external data-model
contract). -/
theorem c7_noop_short_circuit :
    (∀ (d : Domain) (capsF capsS : List (Concept × Cap)) (eD eR : Bool)
       (filt sub : List (String × VConstraint)) (embedReq : List String)
       (p : CollPlans),
       collectionPlans d capsF capsS eD eR filt sub embedReq
         = Except.ok p →
       p.apiFilter = [] → p.apiSubset = [] → embedReq = [] →
       collectionDoExecute d capsF capsS eD eR filt sub embedReq
         = Except.ok (CollOutcome.underlyingQuery filt sub embedReq) ∧
       collLoaderCalls (CollOutcome.underlyingQuery filt sub embedReq)
         = 0) ∧
    (∀ (d : Domain) (capsF capsS : List (Concept × Cap)) (eD eR : Bool),
       collectionDoExecute d capsF capsS eD eR [] [] []
         = Except.ok (CollOutcome.underlyingQuery [] [] []) ∧
       collLoaderCalls (CollOutcome.underlyingQuery [] [] []) = 0) := by
  have hembed : ∀ (d : Domain) (capsF capsS : List (Concept × Cap))
      (eD eR : Bool) (filt sub : List (String × VConstraint))
      (p : CollPlans),
      collectionPlans d capsF capsS eD eR filt sub [] = Except.ok p →
      p.apiEmbed = [] := by
    intro d capsF capsS eD eR filt sub p hp
    unfold collectionPlans at hp
    dsimp only at hp
    cases hs : collSubsetSplitLoop capsS (getAxisConcepts d) sub ([], [])
      with
    | error e =>
      rw [hs] at hp
      dsimp only at hp
      cases hp
    | ok ss =>
      rw [hs] at hp
      dsimp only at hp
      simp only [Except.ok.injEq] at hp
      rw [← hp]
      cases eD <;> cases eR <;> rfl
  constructor
  · intro d capsF capsS eD eR filt sub embedReq p hp hf hs hreq
    subst hreq
    refine ⟨?_, rfl⟩
    unfold collectionDoExecute
    rw [hp]
    dsimp only
    rw [if_pos (by
      rw [hf, hs, hembed d capsF capsS eD eR filt sub p hp]; rfl)]
  · intro d capsF capsS eD eR
    refine ⟨?_, rfl⟩
    unfold collectionDoExecute collectionPlans
    simp only [filterSplitLoop, collSubsetSplitLoop,
      toLocalConstraintsIfDependencyMissing, repairLoop, List.map_nil,
      ite_self]
    rfl

/-- C7 — witness: a filter constraint on a capability-free API produces
an all-local plan, and the execution short-circuits to the underlying
query with zero loader calls. -/
theorem c7_noop_short_circuit_witness :
    collectionPlans exDomZ [] [] false false
        [("z", VConstraint.range 0 1)] [] []
      = Except.ok ⟨[], [], [], [("z", VConstraint.range 0 1)], []⟩ ∧
    collectionDoExecute exDomZ [] [] false false
        [("z", VConstraint.range 0 1)] [] []
      = Except.ok (CollOutcome.underlyingQuery
          [("z", VConstraint.range 0 1)] [] []) ∧
    collLoaderCalls (CollOutcome.underlyingQuery
      [("z", VConstraint.range 0 1)] [] []) = 0 :=
  ⟨by decide,
   (c7_noop_short_circuit.1 exDomZ [] [] false false
     [("z", VConstraint.range 0 1)] [] []
     ⟨[], [], [], [("z", VConstraint.range 0 1)], []⟩
     (by decide) (by decide) (by decide) rfl).1,
   (c7_noop_short_circuit.1 exDomZ [] [] false false
     [("z", VConstraint.range 0 1)] [] []
     ⟨[], [], [], [("z", VConstraint.range 0 1)], []⟩
     (by decide) (by decide) (by decide) rfl).2⟩

/-- C10 — confirmed.  When every axis named in the cleaned constraints
has at most one value in the domain, both `subsetByIndex` and
`subsetByValue` return the wrapped coverage object itself: no loader
call and no underlying local subset operation. -/
theorem c10_singleton_axes_noop (d : Domain)
    (caps : List (Concept × Cap))
    (rawV : List (String × Option VConstraint))
    (rawI : List (String × Option IConstraint))
    (hV : ∀ p ∈ cleanedConstraints rawV, (d.axisValues p.1).length ≤ 1)
    (hI : ∀ p ∈ cleanedConstraints rawI, (d.axisValues p.1).length ≤ 1) :
    wrappedSubsetByValue d caps rawV
      = Except.ok SubsetOutcome.wrappedSelf ∧
    wrappedSubsetByIndex d caps rawI = IdxOutcome.wrappedSelf ∧
    subsetLoaderCalls SubsetOutcome.wrappedSelf = 0 ∧
    idxLoaderCalls IdxOutcome.wrappedSelf = 0 := by
  have hreqV : requiresSubsetting d (cleanedConstraints rawV) = false := by
    simp only [requiresSubsetting, List.any_eq_false, decide_eq_true_eq]
    intro p hp
    exact Nat.not_lt.mpr (hV p hp)
  have hreqI : requiresSubsetting d (cleanedConstraints rawI) = false := by
    simp only [requiresSubsetting, List.any_eq_false, decide_eq_true_eq]
    intro p hp
    exact Nat.not_lt.mpr (hI p hp)
  refine ⟨?_, ?_, rfl, rfl⟩
  · simp [wrappedSubsetByValue, hreqV]
  · simp [wrappedSubsetByIndex, hreqI]

/-- Helper: looking up a key of a key-indexed map image. -/
theorem lookupMapKeyed {α γ : Type} [BEq α] [LawfulBEq α]
    {β : Type} (l : List (α × β)) (f : α → γ) (a : α)
    (h : a ∈ l.map Prod.fst) :
    (l.map (fun p => (p.1, f p.1))).lookup a = some (f a) := by
  induction l with
  | nil => simp at h
  | cons p t ih =>
    by_cases hpa : a == p.1
    · have hae : a = p.1 := eq_of_beq hpa
      subst hae
      simp [List.lookup]
    · have hf : (a == p.1) = false := by simpa using hpa
      simp only [List.map_cons, List.lookup, hf]
      apply ih
      simp only [List.map_cons, List.mem_cons] at h
      rcases h with h | h
      · exact absurd (beq_iff_eq.mpr h) (by simpa using hpa)
      · exact h

/-- Helper: the loop body of the resolver agrees with the specification
rendering of the axis-concept rule. -/
theorem axisConceptOf_eq_spec (d : Domain) (a : String) :
    axisConceptOf d a = axisConceptSpec d a := by
  unfold axisConceptOf axisConceptSpec
  cases hl : d.referencing.filter (fun e => e.components.contains a) with
  | nil => rfl
  | cons e t =>
    cases t with
    | cons e2 t2 => rfl
    | nil =>
      dsimp only [List.length_cons, List.length_nil]
      norm_num
      cases e.system with
      | temporalRS => rfl
      | verticalCRS => rfl
      | other => rfl
      | geodeticCRS =>
        dsimp only
        cases hidx : e.components.indexOf a with
        | zero => rfl
        | succ n =>
          cases n with
          | zero => rfl
          | succ m =>
            cases m with
            | zero => rfl
            | succ k => rfl
      | projectedCRS =>
        dsimp only
        cases hidx : e.components.indexOf a with
        | zero => rfl
        | succ n =>
          cases n with
          | zero => rfl
          | succ m =>
            cases m with
            | zero => rfl
            | succ k => rfl

/-- C8 — confirmed.  For every axis of the domain, the resolver's mapping
is exactly the claimed rule: exactly one referencing entry containing the
axis yields `time` for Temporal systems, `vertical` for Vertical systems,
and `x`/`y`/`vertical` by zero-based component position (positions beyond
2 unknown) for Geodetic/Projected systems; zero or several entries yield
no concept.  Determinism and purity hold because the resolver is a
function of the domain alone. -/
theorem c8_axis_concepts_spec (d : Domain) (a : String)
    (ha : a ∈ d.axes.map Prod.fst) :
    List.lookup a (getAxisConcepts d) = some (axisConceptSpec d a) := by
  unfold getAxisConcepts
  rw [lookupMapKeyed d.axes (fun a => axisConceptOf d a) a ha]
  rw [axisConceptOf_eq_spec]

/-- C8 — witness at the vertical test domain: axis `z` resolves to the
`vertical` concept. -/
theorem c8_axis_concepts_spec_witness :
    ("z" ∈ exDomZ.axes.map Prod.fst) ∧
    List.lookup "z" (getAxisConcepts exDomZ)
      = some (axisConceptSpec exDomZ "z") ∧
    axisConceptSpec exDomZ "z" = some Concept.vertical :=
  ⟨by decide, c8_axis_concepts_spec exDomZ "z" (by decide), by decide⟩

/-- Helper: `findIdx` returns the first index at which the predicate
holds. -/
theorem findIdx_eq_of (l : List ℚ) (p : ℚ → Bool) (i : Nat)
    (hi : i < l.length)
    (hb : ∀ j, j < i → p (l.getD j 0) = false)
    (hat : p (l.getD i 0) = true) :
    l.findIdx p = i := by
  induction l generalizing i with
  | nil => exact absurd hi (by simp)
  | cons a t ih =>
    cases i with
    | zero =>
      have hpa : p a = true := by simpa using hat
      simp [List.findIdx_cons, hpa]
    | succ k =>
      have hpa : p a = false := by simpa using hb 0 (Nat.succ_pos k)
      have hrec : t.findIdx p = k :=
        ih k (by simpa using Nat.lt_of_succ_lt_succ hi)
          (fun j hj => by simpa using hb (j + 1) (Nat.succ_lt_succ hj))
          (by simpa using hat)
      simp [List.findIdx_cons, hpa, hrec]

/-- Helper: a pairwise relation transfers to `getD` at increasing
indices. -/
theorem pairwiseGetDRel (R : ℚ → ℚ → Prop) (l : List ℚ)
    (h : List.Pairwise R l) (i j : Nat) (hij : i < j)
    (hj : j < l.length) :
    R (l.getD i 0) (l.getD j 0) := by
  rw [List.getD_eq_getElem _ _ (Nat.lt_trans hij hj),
      List.getD_eq_getElem _ _ hj]
  exact List.pairwise_iff_getElem.mp h i j (Nat.lt_trans hij hj) hj hij

/-- Helper: on a strictly ascending or strictly descending list, a search
value equal to the grid point at index `i` makes both nearest-neighbour
candidates equal to `i`. -/
theorem indicesOfNearest_exact (vals : List ℚ) (w : ℚ) (i : Nat)
    (hsort : List.Pairwise (· < ·) vals ∨ List.Pairwise (· > ·) vals)
    (hi : i < vals.length) (hw : vals.getD i 0 = w) :
    indicesOfNearest vals (some w) = (i, i) := by
  have hne : vals.isEmpty = false := by
    cases vals
    · simp at hi
    · rfl
  have hipBranch :
      (if (vals.length == 1
            || decide (vals.getD 0 0 < vals.getD 1 0)) = true
       then vals.findIdx (fun v => jsLe (some w) (some v))
       else vals.findIdx (fun v => jsLe (some v) (some w))) = i := by
    rcases Nat.lt_or_ge 1 vals.length with hlen2 | hlen1
    · rcases hsort with hasc | hdesc
      · have h01 : vals.getD 0 0 < vals.getD 1 0 :=
          pairwiseGetDRel _ _ hasc 0 1 Nat.zero_lt_one hlen2
        rw [if_pos (by rw [decide_eq_true h01, Bool.or_true])]
        refine findIdx_eq_of vals _ i hi (fun j hj => ?_) ?_
        · have hlt : vals.getD j 0 < vals.getD i 0 :=
            pairwiseGetDRel _ _ hasc j i hj hi
          rw [hw] at hlt
          show jsLe (some w) (some (vals.getD j 0)) = false
          simp only [jsLe]
          exact decide_eq_false (not_le.mpr hlt)
        · show jsLe (some w) (some (vals.getD i 0)) = true
          rw [hw]
          simp [jsLe]
      · have h01 : vals.getD 0 0 > vals.getD 1 0 :=
          pairwiseGetDRel _ _ hdesc 0 1 Nat.zero_lt_one hlen2
        have hlenne : (vals.length == 1) = false :=
          beq_eq_false_iff_ne.mpr (by omega)
        have hcond : (vals.length == 1
            || decide (vals.getD 0 0 < vals.getD 1 0)) = false := by
          rw [Bool.or_eq_false_iff]
          exact ⟨hlenne, decide_eq_false (not_lt.mpr (le_of_lt h01))⟩
        rw [if_neg (by rw [hcond]; exact Bool.false_ne_true)]
        refine findIdx_eq_of vals _ i hi (fun j hj => ?_) ?_
        · have hlt : vals.getD j 0 > vals.getD i 0 :=
            pairwiseGetDRel _ _ hdesc j i hj hi
          rw [hw] at hlt
          show jsLe (some (vals.getD j 0)) (some w) = false
          simp only [jsLe]
          exact decide_eq_false (not_le.mpr hlt)
        · show jsLe (some (vals.getD i 0)) (some w) = true
          rw [hw]
          simp [jsLe]
    · have hlen1' : vals.length = 1 := by omega
      have hi0 : i = 0 := by omega
      subst hi0
      rw [if_pos (by
        rw [(beq_iff_eq.mpr hlen1' : (vals.length == 1) = true),
          Bool.true_or])]
      refine findIdx_eq_of vals _ 0 hi (fun j hj => absurd hj (by omega))
        ?_
      show jsLe (some w) (some (vals.getD 0 0)) = true
      rw [hw]
      simp [jsLe]
  simp only [indicesOfNearest, hne, Bool.false_eq_true, if_false]
  rw [hipBranch]
  have hne2 : (i == vals.length) = false :=
    beq_eq_false_iff_ne.mpr (Nat.ne_of_lt hi)
  rw [hne2]
  simp only [Bool.false_eq_true, if_false]
  have heq : (some (vals.getD i 0) == some w) = true :=
    beq_iff_eq.mpr (by rw [hw])
  rw [heq]
  simp only [if_true]

/-- Helper: the lower nearest-neighbour candidate never exceeds the
upper one. -/
theorem indicesOfNearest_fst_le_snd (a : List ℚ) (x : Option ℚ) :
    (indicesOfNearest a x).1 ≤ (indicesOfNearest a x).2 := by
  unfold indicesOfNearest
  dsimp only
  split <;> (try split) <;> (try split) <;> (try split) <;> (try split) <;>
    simp [Nat.sub_le]

/-- C9 — confirmed.  Snap idempotence: on a strictly monotone
(ascending or descending) value array, a search value equal to the grid
point at index `i` snaps to that same index and value; tie-breaking: when
the two nearest-neighbour candidates are at equal absolute distance the
lower-index candidate is returned; and an axis lookup is exactly the
array lookup over the normalized values and normalized search value. -/
theorem c9_snap_idempotent_tie_lower :
    (∀ (vals : List ℚ) (w : ℚ) (i : Nat),
       (List.Pairwise (· < ·) vals ∨ List.Pairwise (· > ·) vals) →
       i < vals.length → vals.getD i 0 = w →
       getClosestIndexArr vals (some w) = i ∧
       vals.getD (getClosestIndexArr vals (some w)) 0 = w) ∧
    (∀ (vals : List ℚ) (x : ℚ),
       |x - vals.getD (indicesOfNearest vals (some x)).1 0|
         = |x - vals.getD (indicesOfNearest vals (some x)).2 0| →
       getClosestIndexArr vals (some x)
         = (indicesOfNearest vals (some x)).1 ∧
       (indicesOfNearest vals (some x)).1
         ≤ (indicesOfNearest vals (some x)).2) ∧
    (∀ (d : Domain) (a : String) (v : ℚ),
       getClosestIndex d a (some v)
         = getClosestIndexArr
             (prepareForAxisArraySearch (d.axisCtx a) (some v)).1
             (prepareForAxisArraySearch (d.axisCtx a) (some v)).2) := by
  refine ⟨?_, ?_, fun d a v => rfl⟩
  · intro vals w i hsort hi hw
    have he := indicesOfNearest_exact vals w i hsort hi hw
    have hfst : getClosestIndexArr vals (some w) = i := by
      unfold getClosestIndexArr
      rw [he]
      simp [jsLe]
    exact ⟨hfst, by rw [hfst, hw]⟩
  · intro vals x hdist
    refine ⟨?_, indicesOfNearest_fst_le_snd vals (some x)⟩
    have hcond : jsLe
        ((some x).map (fun w =>
          |w - vals.getD (indicesOfNearest vals (some x)).1 0|))
        ((some x).map (fun w =>
          |w - vals.getD (indicesOfNearest vals (some x)).2 0|)) = true := by
      show jsLe (some |x - vals.getD (indicesOfNearest vals (some x)).1 0|)
        (some |x - vals.getD (indicesOfNearest vals (some x)).2 0|) = true
      simp only [jsLe]
      rw [hdist]
      simp
    unfold getClosestIndexArr
    dsimp only
    rw [if_pos hcond]

/-- C9 — witness: on `[0, 10, 20, 30]` the grid point `10` snaps to its
own index 1 and value 10; on `[0, 10]` the midpoint `5` is equidistant
from both candidates and snaps to the lower index 0. -/
theorem c9_snap_idempotent_tie_lower_witness :
    List.Pairwise (· < ·) ([0, 10, 20, 30] : List ℚ) ∧
    getClosestIndexArr [0, 10, 20, 30] (some 10) = 1 ∧
    ([0, 10, 20, 30] : List ℚ).getD
      (getClosestIndexArr [0, 10, 20, 30] (some 10)) 0 = 10 ∧
    (|(5 : ℚ) - ([0, 10] : List ℚ).getD
        (indicesOfNearest [0, 10] (some 5)).1 0|
      = |(5 : ℚ) - ([0, 10] : List ℚ).getD
          (indicesOfNearest [0, 10] (some 5)).2 0|) ∧
    getClosestIndexArr [0, 10] (some 5)
      = (indicesOfNearest [0, 10] (some 5)).1 ∧
    (indicesOfNearest [0, 10] (some 5)).1 = 0 :=
  ⟨by decide,
   (c9_snap_idempotent_tie_lower.1 [0, 10, 20, 30] 10 1
     (Or.inl (by decide)) (by decide) (by decide)).1,
   (c9_snap_idempotent_tie_lower.1 [0, 10, 20, 30] 10 1
     (Or.inl (by decide)) (by decide) (by decide)).2,
   by decide,
   (c9_snap_idempotent_tie_lower.2.1 [0, 10] 5 (by decide)).1,
   by decide⟩

/-- C10 — witness at a singleton vertical axis with one range
constraint and one index constraint. -/
theorem c10_singleton_axes_noop_witness :
    wrappedSubsetByValue
        ⟨[("z", ⟨[5], false, false, id, id⟩)],
         [⟨["z"], SystemType.verticalCRS⟩]⟩
        exCapsVert [("z", some (VConstraint.range 0 1))]
      = Except.ok SubsetOutcome.wrappedSelf ∧
    wrappedSubsetByIndex
        ⟨[("z", ⟨[5], false, false, id, id⟩)],
         [⟨["z"], SystemType.verticalCRS⟩]⟩
        exCapsVert [("z", some (IConstraint.index 0))]
      = IdxOutcome.wrappedSelf ∧
    subsetLoaderCalls SubsetOutcome.wrappedSelf = 0 ∧
    idxLoaderCalls IdxOutcome.wrappedSelf = 0 :=
  c10_singleton_axes_noop
    ⟨[("z", ⟨[5], false, false, id, id⟩)],
     [⟨["z"], SystemType.verticalCRS⟩]⟩
    exCapsVert [("z", some (VConstraint.range 0 1))]
    [("z", some (IConstraint.index 0))]
    (by decide) (by decide)

/-- Helper: a resolved concept comes from a member of the axis-concept
map. -/
theorem lookupConcept_mem {am : List (String × Option Concept)}
    {a : String} {c : Concept} (h : lookupConcept am a = some c) :
    (a, some c) ∈ am := by
  unfold lookupConcept at h
  cases hl : am.lookup a with
  | none => rw [hl] at h; cases h
  | some o =>
    rw [hl] at h
    have ho : o = some c := by
      cases o with
      | none => cases h
      | some c' => simpa using h
    rw [ho] at hl
    exact lookup_mem hl

/-- Helper: object assignment with a fresh key appends. -/
theorem objInsert_append {α β : Type} [BEq α] [LawfulBEq α]
    (l : List (α × β)) (k : α) (v : β) (h : k ∉ l.map Prod.fst) :
    objInsert l k v = l ++ [(k, v)] := by
  unfold objInsert
  rw [if_neg]
  intro hany
  rw [List.any_eq_true] at hany
  obtain ⟨p, hp, hpk⟩ := hany
  exact h (List.mem_map.mpr ⟨p, hp, eq_of_beq hpk⟩)

/-- Helper: a remote decision carries the axis's resolved concept. -/
theorem splitAxisByValue_toApi_concept (d : Domain)
    (caps : List (Concept × Cap)) (am : List (String × Option Concept))
    (a : String) (con : VConstraint) (c : Concept) (v : VConstraint)
    (h : splitAxisByValue d caps am a con = Except.ok (Decision.toApi c v)) :
    lookupConcept am a = some c := by
  unfold splitAxisByValue at h
  cases hc : lookupConcept am a with
  | none =>
    rw [hc] at h
    dsimp only at h
    simp at h
  | some c' =>
    rw [hc] at h
    dsimp only at h
    cases hcap : caps.lookup c' with
    | none =>
      rw [hcap] at h
      dsimp only at h
      simp at h
    | some cap =>
      rw [hcap] at h
      dsimp only at h
      cases hdec : decideAxisByValue d a cap con with
      | error e => rw [hdec] at h; dsimp only at h; cases h
      | ok o =>
        rw [hdec] at h
        cases o with
        | none => simp at h
        | some v' =>
          simp only [Except.ok.injEq, Decision.toApi.injEq] at h
          rw [h.1]

/-- Helper: under an injective concept assignment, the demotion code's
first-axis-of-a-concept computation returns the unique axis of that
concept. -/
theorem filter_concept_axis (am : List (String × Option Concept))
    (Hinj : ∀ a₁ a₂ c, (a₁, some c) ∈ am → (a₂, some c) ∈ am → a₁ = a₂)
    (a : String) (c : Concept) (hmem : (a, some c) ∈ am) :
    ((am.filter (fun p => p.2 == some c)).map Prod.fst).getD 0 "" = a := by
  have hmf : (a, some c) ∈ am.filter (fun p => p.2 == some c) :=
    List.mem_filter.mpr ⟨hmem, by simp⟩
  cases hf : am.filter (fun p => p.2 == some c) with
  | nil => rw [hf] at hmf; cases hmf
  | cons q t =>
    have hq : q ∈ am.filter (fun p => p.2 == some c) := by
      rw [hf]; exact List.mem_cons_self _ _
    have hq2 : q.2 = some c := by
      have := (List.mem_filter.mp hq).2
      simpa using this
    have hqam : q ∈ am := (List.mem_filter.mp hq).1
    have hqmem : (q.1, some c) ∈ am := by rw [← hq2]; exact hqam
    have hqa : q.1 = a := Hinj q.1 a c hqmem hmem
    simpa using hqa

/-- Helper: the per-axis split loop preserves the plan invariant,
extending the processed-axis list by the loop's keys. -/
theorem splitLoop_inv (d : Domain) (caps : List (Concept × Cap))
    (am : List (String × Option Concept))
    (Hinj : ∀ a₁ a₂ c, (a₁, some c) ∈ am → (a₂, some c) ∈ am → a₁ = a₂) :
    ∀ (rest : List (String × VConstraint)) (done : List String)
      (A : List (Concept × VConstraint))
      (L : List (String × VConstraint))
      (res : List (Concept × VConstraint) × List (String × VConstraint)),
      (done ++ rest.map Prod.fst).Nodup →
      PlanInv am done A L →
      splitByValueLoop d caps am rest (A, L) = Except.ok res →
      PlanInv am (done ++ rest.map Prod.fst) res.1 res.2 := by
  intro rest
  induction rest with
  | nil =>
    intro done A L res hnd hinv hok
    have hres : (A, L) = res := by
      unfold splitByValueLoop at hok
      exact Except.ok.inj hok
    simp only [List.map_nil, List.append_nil]
    rw [← hres]
    exact hinv
  | cons p rest' ih =>
    intro done A L res hnd hinv hok
    obtain ⟨a, con⟩ := p
    obtain ⟨hA, hL, hI4, hI5, hI2⟩ := hinv
    have hadone : a ∉ done := by
      intro hmem
      have hnd' : (done ++ a :: rest'.map Prod.fst).Nodup := by
        simpa using hnd
      exact (List.nodup_append.mp hnd').2.2 hmem (List.mem_cons_self _ _)
    have hanotL : a ∉ L.map Prod.fst := fun hm => hadone (hI5 hm)
    unfold splitByValueLoop at hok
    cases hsplit : splitAxisByValue d caps am a con with
    | error e =>
      rw [hsplit] at hok
      cases hok
    | ok dec =>
      rw [hsplit] at hok
      cases dec with
      | toLocal =>
        dsimp only at hok
        rw [objInsert_append L a con hanotL] at hok
        have hinv' : PlanInv am (done ++ [a]) A (L ++ [(a, con)]) := by
          refine ⟨hA, ?_, ?_, ?_, ?_⟩
          · rw [List.map_append, List.nodup_append]
            exact ⟨hL, by simp, fun b hb hb2 => by
              simp at hb2; exact hanotL (hb2 ▸ hb)⟩
          · intro c' hc'
            obtain ⟨a', h1, h2, h3⟩ := hI4 c' hc'
            refine ⟨a', List.mem_append_left _ h1, h2, ?_⟩
            rw [List.map_append]
            intro hmem
            rcases List.mem_append.mp hmem with h | h
            · exact h3 h
            · simp at h
              exact hadone (h ▸ h1)
          · rw [List.map_append]
            intro b hb
            rcases List.mem_append.mp hb with hb | hb
            · exact List.mem_append_left _ (hI5 hb)
            · simp at hb
              subst hb
              exact List.mem_append_right _ (by simp)
          · intro b hb
            rcases List.mem_append.mp hb with hb | hb
            · rcases hI2 b hb with h | h
              · exact Or.inl h
              · exact Or.inr (by
                  rw [List.map_append]; exact List.mem_append_left _ h)
            · simp at hb
              subst hb
              exact Or.inr (by rw [List.map_append]; simp)
        have hnd' : ((done ++ [a]) ++ rest'.map Prod.fst).Nodup := by
          rw [List.append_assoc]
          simpa using hnd
        have hres := ih (done ++ [a]) A (L ++ [(a, con)]) res hnd' hinv'
          hok
        rw [List.append_assoc] at hres
        simpa using hres
      | toApi c v =>
        dsimp only at hok
        have hc : lookupConcept am a = some c :=
          splitAxisByValue_toApi_concept d caps am a con c v hsplit
        have hcfresh : c ∉ A.map Prod.fst := by
          intro hmem
          obtain ⟨a', h1, h2, _⟩ := hI4 c hmem
          have hba : a = a' :=
            Hinj a a' c (lookupConcept_mem hc) (lookupConcept_mem h2)
          exact hadone (hba ▸ h1)
        rw [objInsert_append A c v hcfresh] at hok
        have hinv' : PlanInv am (done ++ [a]) (A ++ [(c, v)]) L := by
          refine ⟨?_, hL, ?_, ?_, ?_⟩
          · rw [List.map_append, List.nodup_append]
            exact ⟨hA, by simp, fun b hb hb2 => by
              simp at hb2; exact hcfresh (hb2 ▸ hb)⟩
          · intro c' hc'
            rw [List.map_append] at hc'
            rcases List.mem_append.mp hc' with h | h
            · obtain ⟨a', h1, h2, h3⟩ := hI4 c' h
              exact ⟨a', List.mem_append_left _ h1, h2, h3⟩
            · simp at h
              subst h
              exact ⟨a, List.mem_append_right _ (by simp), hc, hanotL⟩
          · intro b hb
            exact List.mem_append_left _ (hI5 hb)
          · intro b hb
            rcases List.mem_append.mp hb with hb | hb
            · rcases hI2 b hb with ⟨c', h1, h2⟩ | h
              · exact Or.inl ⟨c', h1, by
                  rw [List.map_append]; exact List.mem_append_left _ h2⟩
              · exact Or.inr h
            · simp at hb
              subst hb
              exact Or.inl ⟨c, hc, by rw [List.map_append]; simp⟩
        have hnd' : ((done ++ [a]) ++ rest'.map Prod.fst).Nodup := by
          rw [List.append_assoc]
          simpa using hnd
        have hres := ih (done ++ [a]) (A ++ [(c, v)]) L res hnd' hinv' hok
        rw [List.append_assoc] at hres
        simpa using hres

/-- Helper: one dependency-repair step preserves the plan invariant. -/
theorem repairStep_preserves_inv (caps : List (Concept × Cap))
    (am : List (String × Option Concept)) (done : List String)
    (Hinj : ∀ a₁ a₂ c, (a₁, some c) ∈ am → (a₂, some c) ∈ am → a₁ = a₂)
    (A : List (Concept × VConstraint)) (L : List (String × VConstraint))
    (c : Concept) (hinv : PlanInv am done A L) :
    PlanInv am done (repairStep jsTruthy id caps am (A, L) c).1
      (repairStep jsTruthy id caps am (A, L) c).2 := by
  obtain ⟨hA, hL, hI4, hI5, hI2⟩ := hinv
  unfold repairStep
  dsimp only
  split
  · split
    case _ v hv =>
      dsimp only
      have hck : c ∈ A.map Prod.fst :=
        List.mem_map.mpr ⟨(c, v), lookup_mem (show A.lookup c = some v
          from hv), rfl⟩
      obtain ⟨a, had, hac, hanl⟩ := hI4 c hck
      rw [filter_concept_axis am Hinj a c (lookupConcept_mem hac)]
      rw [objInsert_append L a (id v) hanl]
      refine ⟨?_, ?_, ?_, ?_, ?_⟩
      · rw [keys_eraseP_eq_erase]
        exact hA.erase _
      · rw [List.map_append, List.nodup_append]
        exact ⟨hL, by simp, fun b hb hb2 => by
          simp at hb2; exact hanl (hb2 ▸ hb)⟩
      · intro c' hc'
        rw [keys_eraseP_eq_erase] at hc'
        have hc'2 : c' ≠ c ∧ c' ∈ A.map Prod.fst :=
          (List.Nodup.mem_erase_iff hA).mp hc'
        obtain ⟨a', h1, h2, h3⟩ := hI4 c' hc'2.2
        refine ⟨a', h1, h2, ?_⟩
        rw [List.map_append]
        intro hmem
        rcases List.mem_append.mp hmem with h | h
        · exact h3 h
        · simp at h
          subst h
          exact hc'2.1 (Option.some.inj (hac.symm.trans h2)).symm
      · rw [List.map_append]
        intro b hb
        rcases List.mem_append.mp hb with h | h
        · exact hI5 h
        · simp at h
          subst h
          exact had
      · intro b hb
        rcases hI2 b hb with ⟨c', h1, h2⟩ | h
        · by_cases hcc : c' = c
          · subst hcc
            have hba : b = a :=
              Hinj b a c' (lookupConcept_mem h1) (lookupConcept_mem hac)
            exact Or.inr (by rw [List.map_append]; subst hba; simp)
          · refine Or.inl ⟨c', h1, ?_⟩
            rw [keys_eraseP_eq_erase]
            exact (List.Nodup.mem_erase_iff hA).mpr ⟨hcc, h2⟩
        · exact Or.inr (by
            rw [List.map_append]; exact List.mem_append_left _ h)
    case _ hv => exact ⟨hA, hL, hI4, hI5, hI2⟩
  · exact ⟨hA, hL, hI4, hI5, hI2⟩

/-- Helper: the dependency-repair loop preserves the plan invariant. -/
theorem repairLoop_inv (caps : List (Concept × Cap))
    (am : List (String × Option Concept)) (done : List String)
    (Hinj : ∀ a₁ a₂ c, (a₁, some c) ∈ am → (a₂, some c) ∈ am → a₁ = a₂) :
    ∀ (S : List Concept) (A : List (Concept × VConstraint))
      (L : List (String × VConstraint)),
      PlanInv am done A L →
      PlanInv am done (repairLoop jsTruthy id caps am S (A, L)).1
        (repairLoop jsTruthy id caps am S (A, L)).2 := by
  intro S
  induction S with
  | nil => intro A L h; exact h
  | cons c S' ih =>
    intro A L h
    have hstep := repairStep_preserves_inv caps am done Hinj A L c h
    exact ih (repairStep jsTruthy id caps am (A, L) c).1
      (repairStep jsTruthy id caps am (A, L) c).2 hstep

/-- C1 — amended.  Provided the constraint keys are duplicate free and no
two domain axes resolve to the same known concept, the splitter's two
outputs partition the cleaned constraint keys exactly: an axis key is a
constraint key iff it is represented in the remote plan (through its
concept) or is a local-plan key, never both, and neither plan carries
duplicate keys.  (With two axes sharing a concept the remote object
overwrites one constraint with the other and an axis is dropped — see the
counterexample.) -/
theorem c1_plan_partition (d : Domain) (caps : List (Concept × Cap))
    (cons : List (String × VConstraint))
    (api : List (Concept × VConstraint))
    (lcl : List (String × VConstraint))
    (Hnodup : (cons.map Prod.fst).Nodup)
    (Hinj : ∀ a₁ a₂ c, (a₁, some c) ∈ getAxisConcepts d →
      (a₂, some c) ∈ getAxisConcepts d → a₁ = a₂)
    (Hok : subsetByValuePlan d caps cons = Except.ok (api, lcl)) :
    (∀ a, a ∈ cons.map Prod.fst ↔
      (inApi (getAxisConcepts d) api a ∨ a ∈ lcl.map Prod.fst)) ∧
    (∀ a, ¬(inApi (getAxisConcepts d) api a ∧ a ∈ lcl.map Prod.fst)) ∧
    (api.map Prod.fst).Nodup ∧ (lcl.map Prod.fst).Nodup := by
  unfold subsetByValuePlan at Hok
  cases hsp : splitByValueLoop d caps (getAxisConcepts d) cons ([], [])
    with
  | error e => rw [hsp] at Hok; cases Hok
  | ok st =>
    rw [hsp] at Hok
    dsimp only at Hok
    have heq : toLocalConstraintsIfDependencyMissing jsTruthy id caps
        (getAxisConcepts d) st.1 st.2 = (api, lcl) := Except.ok.inj Hok
    have hinv0 : PlanInv (getAxisConcepts d) [] [] [] := by
      refine ⟨List.nodup_nil, List.nodup_nil, ?_, ?_, ?_⟩ <;> simp
    have h1 := splitLoop_inv d caps (getAxisConcepts d) Hinj cons [] [] []
      st (by simpa using Hnodup) hinv0 (by rw [hsp])
    rw [List.nil_append] at h1
    have h2 := repairLoop_inv caps (getAxisConcepts d)
      (cons.map Prod.fst) Hinj (st.1.map Prod.fst) st.1 st.2
      (by exact h1)
    have h2' : PlanInv (getAxisConcepts d) (cons.map Prod.fst) api lcl := by
      have hdef : repairLoop jsTruthy id caps (getAxisConcepts d)
          (st.1.map Prod.fst) (st.1, st.2) = (api, lcl) := by
        rw [← heq]
        rfl
      rw [hdef] at h2
      exact h2
    obtain ⟨hA, hL, hI4, hI5, hI2⟩ := h2'
    refine ⟨?_, ?_, hA, hL⟩
    · intro a
      constructor
      · exact hI2 a
      · intro h
        rcases h with ⟨c, hc, hck⟩ | hl
        · obtain ⟨a', ha'd, ha'c, _⟩ := hI4 c hck
          have hba : a = a' :=
            Hinj a a' c (lookupConcept_mem hc) (lookupConcept_mem ha'c)
          rw [hba]
          exact ha'd
        · exact hI5 hl
    · rintro a ⟨⟨c, hc, hck⟩, hl⟩
      obtain ⟨a', _, ha'c, ha'nl⟩ := hI4 c hck
      have hba : a = a' :=
        Hinj a a' c (lookupConcept_mem hc) (lookupConcept_mem ha'c)
      rw [hba] at hl
      exact ha'nl hl

/-- C1 — witness for the amended theorem at the bbox-demotion scenario:
keys `x` (demoted to local) and `t` (remote as `time`) partition
exactly. -/
theorem c1_plan_partition_witness :
    ("t" ∈ ([("x", VConstraint.range 0 10),
        ("t", VConstraint.range 0 10)].map Prod.fst) ↔
      (inApi (getAxisConcepts
          ⟨[("x", ⟨[0, 10], false, false, id, id⟩),
            ("t", ⟨[0, 10], false, false, id, id⟩)],
           [⟨["x", "yy"], SystemType.geodeticCRS⟩,
            ⟨["t"], SystemType.temporalRS⟩]⟩)
        [(Concept.time, VConstraint.range 0 10)] "t" ∨
       "t" ∈ ([("x", VConstraint.range 0 10)].map Prod.fst))) ∧
    ¬(inApi (getAxisConcepts
        ⟨[("x", ⟨[0, 10], false, false, id, id⟩),
          ("t", ⟨[0, 10], false, false, id, id⟩)],
         [⟨["x", "yy"], SystemType.geodeticCRS⟩,
          ⟨["t"], SystemType.temporalRS⟩]⟩)
      [(Concept.time, VConstraint.range 0 10)] "x" ∧
      "x" ∈ ([("x", VConstraint.range 0 10)].map Prod.fst)) ∧
    (([(Concept.time, VConstraint.range 0 10)].map Prod.fst).Nodup) ∧
    (([("x", VConstraint.range 0 10)].map Prod.fst).Nodup) := by
  have h := c1_plan_partition
    ⟨[("x", ⟨[0, 10], false, false, id, id⟩),
      ("t", ⟨[0, 10], false, false, id, id⟩)],
     [⟨["x", "yy"], SystemType.geodeticCRS⟩,
      ⟨["t"], SystemType.temporalRS⟩]⟩
    (createCapabilities false false false true true false false false
      false).subset
    [("x", VConstraint.range 0 10), ("t", VConstraint.range 0 10)]
    [(Concept.time, VConstraint.range 0 10)]
    [("x", VConstraint.range 0 10)]
    (by decide)
    (by
      intro a₁ a₂ c h1 h2
      have hconc : getAxisConcepts
          ⟨[("x", ⟨[0, 10], false, false, id, id⟩),
            ("t", ⟨[0, 10], false, false, id, id⟩)],
           [⟨["x", "yy"], SystemType.geodeticCRS⟩,
            ⟨["t"], SystemType.temporalRS⟩]⟩
          = [("x", some Concept.x), ("t", some Concept.time)] := by
        decide
      rw [hconc] at h1 h2
      simp only [List.mem_cons, List.mem_singleton,
        List.not_mem_nil] at h1 h2
      rcases h1 with h1 | h1 | h1 <;> rcases h2 with h2 | h2 | h2 <;>
        simp_all)
    (by decide)
  exact ⟨h.1 "t", h.2.1 "x", h.2.2.1, h.2.2.2⟩

end CovRest
